import Mathlib

/-!
# Verification of the hauler content store against its specification

Shallow embedding of `src/pkg/store/store.go` (package `store` of
rancherfederal/hauler) together with the parts of its dependencies that the
store's observable behaviour goes through:

* the reference-parsing functions of `github.com/google/go-containerregistry/pkg/name`
  (`ParseReference`, `NewTag`, `NewDigest`, `NewRepository`, `NewRegistry` and the
  accessors `Context`, `Identifier`, `Name`, `RepositoryStr`), embedded faithfully
  from that library's source;
* the staging layout (`newLayout`, `stage.add`, `stage.commit`), the blob cache
  (`internal/cache.Oci`) and the transfer primitive (`oras.Copy`), which are parts
  of the repository / its collaborators not present under `src/`; these are
  modelled from the spec, as marked on each definition.

Go strings are embedded as `List Char`; Go `(T, error)` returns as pairs with an
`Option GoError`; Go maps iterated with `range` are embedded as association lists
in their (unspecified) enumeration order.
-/

set_option autoImplicit false

deriving instance DecidableEq for Except

namespace Hauler

/-- Convert a Lean string literal to the `List Char` representation used for Go
strings throughout this development. -/
def str (s : String) : List Char := s.data

/-! ## String helpers mirroring Go's `strings` package -/

/-- Does the character `c` occur in `l`?  Mirrors Go `strings.ContainsRune`. -/
def hasChar (c : Char) : List Char → Bool
  | [] => false
  | x :: xs => if x = c then true else hasChar c xs

/-- Go `strings.Split(s, sep)` for a one-character separator: splits at every
occurrence of `c`, keeping empty pieces (`Split("", c) = [""]`). -/
def splitOnChar (c : Char) : List Char → List (List Char)
  | [] => [[]]
  | x :: xs =>
    if x = c then [] :: splitOnChar c xs
    else
      match splitOnChar c xs with
      | [] => [[x]]
      | p :: ps => (x :: p) :: ps

/-- Go `strings.SplitN(s, sep, 2)` for a one-character separator: the part before
the first occurrence of `c`, and — when `c` occurs — the remainder after it. -/
def splitFirst (c : Char) : List Char → List Char × Option (List Char)
  | [] => ([], none)
  | x :: xs =>
    if x = c then ([], some xs)
    else
      let s := splitFirst c xs
      (x :: s.1, s.2)

/-- Split at the last occurrence of `c`: `some (before, after)` when `c` occurs,
`none` otherwise.  For `parts := strings.Split(s, c)` with `len(parts) > 1` this
returns exactly `(strings.Join(parts[:len-1], c), parts[len-1])`, which is how
go-containerregistry's `NewTag` computes `(base, tag)`. -/
def splitLast (c : Char) : List Char → Option (List Char × List Char)
  | [] => none
  | x :: xs =>
    match splitLast c xs with
    | some (b, t) => some (x :: b, t)
    | none => if x = c then some ([], xs) else none

/-! ## Errors

`GoError` embeds the error values flowing through the store: the `name` package's
bad-name errors, the `ErrInvalidReference` sentinel declared (but never returned)
at `store.go:31`, artifact-production and collection errors modelled from the
spec, transfer errors from the copy primitive, and `github.com/pkg/errors.Wrap`
wrapping as used at `store.go:70`. -/

inductive GoError where
  /-- An error produced by the `name` package (`newErrBadName`). -/
  | badName (msg : List Char)
  /-- The sentinel `ErrInvalidReference = errors.New("invalid reference")`, `store.go:31`. -/
  | invalidReference
  /-- `stage.add` failure: the adapter could not produce its declared content
  (the spec's `ArtifactProductionError`). -/
  | production (msg : List Char)
  /-- `coll.Contents()` failure. -/
  | collection (msg : List Char)
  /-- A transfer error from the external copy primitive, tagged by source reference. -/
  | copyFailed (ref : List Char)
  /-- An error returned by a `CopyAll` reference mapper. -/
  | mapper (msg : List Char)
  /-- An error returned by a `Walk` visit function. -/
  | visit (msg : List Char)
  /-- `github.com/pkg/errors.Wrap(err, msg)`. -/
  | wrap (msg : List Char) (cause : GoError)
  deriving DecidableEq, Repr

/-- The sentinel declared at `store.go:30-32`. -/
def ErrInvalidReference : GoError := GoError.invalidReference

/-- Go `errors.Is(err, target)` for the errors above: unwraps `Wrap` layers and
compares with the target error value. -/
def errorIs : GoError → GoError → Bool
  | GoError.wrap _ cause, target => errorIs cause target
  | e, target => decide (e = target)

/-! ## The `name` package of github.com/google/go-containerregistry

Embedded from that library's `pkg/name` sources (`tag.go`, `digest.go`,
`repository.go`, `registry.go`, `check.go`, `ref.go`, `options.go`), which are the
reference grammar used by `store.go` (`name.ParseReference`, `name.NewDigest`,
`name.WithDefaultRegistry`, `name.WithDefaultTag`).  The `original` string kept by
the library's `Tag`/`Digest` structs feeds only their `String()` method, which the
store never calls, so it is not carried here.  Strict validation is never
requested by the store, so options model only the two defaults it sets. -/

/-- The library's parsing options: `WithDefaultRegistry` / `WithDefaultTag`. -/
structure NameOptions where
  defaultRegistry : List Char
  defaultTag : List Char
  deriving DecidableEq, Repr

/-- `name.DefaultRegistry = "index.docker.io"`. -/
def DefaultRegistry : List Char := str "index.docker.io"

/-- The library defaults: registry `index.docker.io`, tag `latest`. -/
def defaultOpts : NameOptions := ⟨DefaultRegistry, str "latest"⟩

/-- `checkElement(name, element, allowedRunes, minRunes, maxRunes)` from
`check.go`: the element's length lies in `[lo, hi]` and every character is in
`allowed`. -/
def checkElement (element allowed : List Char) (lo hi : Nat) : Bool :=
  decide (lo ≤ element.length) && decide (element.length ≤ hi)
    && element.all (fun c => hasChar c allowed)

/-- `tagChars` from `tag.go`. -/
def tagChars : List Char :=
  str "abcdefghijklmnopqrstuvwxyzABCDEFGHIJKLMNOPQRSTUVWXYZ0123456789_-."

/-- `repositoryChars` from `repository.go`. -/
def repositoryChars : List Char := str "abcdefghijklmnopqrstuvwxyz0123456789_-./"

/-- `digestChars` from `digest.go` (`"sh:" + hex`). -/
def digestChars : List Char := str "sh:0123456789abcdef"

/-- `checkTag` from `tag.go`: 1–127 characters from `tagChars`. -/
def checkTag (t : List Char) : Bool := checkElement t tagChars 1 127

/-- `checkRepository` from `repository.go`: 2–255 characters from `repositoryChars`. -/
def checkRepository (r : List Char) : Bool := checkElement r repositoryChars 2 255

/-- `checkDigest` from `digest.go`: exactly `7+64` characters from `digestChars`
(`"sha256:"` plus 64 hex digits in well-formed digests). -/
def checkDigest (d : List Char) : Bool := checkElement d digestChars 71 71

/-- `checkRegistry` from `registry.go`: `url.Parse("//" + name).Host == name`,
i.e. the string must survive as the authority of an RFC 3986 URI reference.
Embedded as the absence of the characters that would start the path, userinfo,
query or fragment component (`/`, `@`, `?`, `#`); the character sets reaching this
check through the store contain none of the other authority-breaking runes. -/
def checkRegistry (r : List Char) : Bool :=
  r.all (fun c => decide (c ≠ '/' ∧ c ≠ '@' ∧ c ≠ '?' ∧ c ≠ '#'))

/-- `name.Registry`: the registry component.  The `insecure` flag is never set by
the store and does not influence any accessor used here. -/
structure Registry where
  registry : List Char
  deriving DecidableEq, Repr

/-- `Registry.Name()` (= `RegistryStr()`). -/
def RegistryName (r : Registry) : List Char := r.registry

/-- `NewRegistry(name, opts)` from `registry.go`: validate `name`, then default
an empty name to `opts.defaultRegistry` (the default itself is not validated). -/
def NewRegistry (nm : List Char) (opt : NameOptions) : Except GoError Registry :=
  if checkRegistry nm = false then
    Except.error (GoError.badName (str "registries must be valid RFC 3986 URI authorities"))
  else if nm = [] then Except.ok ⟨opt.defaultRegistry⟩
  else Except.ok ⟨nm⟩

/-- `name.Repository`: a registry plus the raw repository string as parsed. -/
structure Repository where
  registry : Registry
  repository : List Char
  deriving DecidableEq, Repr

/-- `defaultNamespace = "library"` from `repository.go`. -/
def defaultNamespace : List Char := str "library"

/-- `hasImplicitNamespace(repo, reg)` from `repository.go`: a slash-free
repository on Docker Hub lives implicitly under `library/`. -/
def hasImplicitNamespace (repo : List Char) (reg : Registry) : Bool :=
  !hasChar '/' repo && decide (reg.registry = DefaultRegistry)

/-- `Repository.RepositoryStr()` from `repository.go`: the repository path, with
the implicit `library/` namespace made explicit.  (`path.Join` on a slash-free
second component is plain concatenation.) -/
def RepositoryStr (r : Repository) : List Char :=
  if hasImplicitNamespace r.repository r.registry then
    defaultNamespace ++ '/' :: r.repository
  else r.repository

/-- `Repository.Name()` from `repository.go`. -/
def RepositoryName (r : Repository) : List Char :=
  if RegistryName r.registry = [] then RepositoryStr r
  else RegistryName r.registry ++ '/' :: RepositoryStr r

/-- `NewRepository(name, opts)` from `repository.go`: split once on `/`; the
first part is the registry iff it contains a `.` or `:`; validate the repository
part; build the registry (defaulting when no explicit registry was found). -/
def NewRepository (nm : List Char) (opt : NameOptions) : Except GoError Repository :=
  if nm = [] then Except.error (GoError.badName (str "a repository name must be specified"))
  else
    let s := splitFirst '/' nm
    let registry : List Char :=
      match s.2 with
      | some _ => if hasChar '.' s.1 || hasChar ':' s.1 then s.1 else []
      | none => []
    let repo : List Char :=
      match s.2 with
      | some rest => if hasChar '.' s.1 || hasChar ':' s.1 then rest else nm
      | none => nm
    if checkRepository repo = false then
      Except.error (GoError.badName (str "repositories can only contain certain characters"))
    else
      match NewRegistry registry opt with
      | Except.error e => Except.error e
      | Except.ok reg => Except.ok ⟨reg, repo⟩

/-- `name.Tag`: a repository plus tag. -/
structure Tag where
  repository : Repository
  tag : List Char
  deriving DecidableEq, Repr

/-- The tail of `NewTag` after `(base, tag)` have been computed: validate a
non-empty tag, default an empty tag, parse the base as a repository. -/
def newTagFinish (bt : List Char × List Char) (opt : NameOptions) : Except GoError Tag :=
  if bt.2 ≠ [] ∧ checkTag bt.2 = false then
    Except.error (GoError.badName (str "tags can only contain certain characters"))
  else
    match NewRepository bt.1 opt with
    | Except.error e => Except.error e
    | Except.ok repo => Except.ok ⟨repo, if bt.2 = [] then opt.defaultTag else bt.2⟩

/-- `NewTag(name, opts)` from `tag.go`: split off a tag after the last `:` unless
that would capture a piece containing `/` (a hostname with port); then validate,
default and build via `newTagFinish`. -/
def NewTag (nm : List Char) (opt : NameOptions) : Except GoError Tag :=
  newTagFinish
    (match splitLast ':' nm with
     | some (b, t) => if hasChar '/' t then (nm, []) else (b, t)
     | none => (nm, []))
    opt

/-- `name.Digest`: a repository plus digest. -/
structure Digest where
  repository : Repository
  digest : List Char
  deriving DecidableEq, Repr

/-- `NewDigest(name, opts)` from `digest.go`: the name must contain exactly one
`@`; the part after it must pass `checkDigest`; a `repo:tag` base is normalised
through `NewTag` to its repository name; the base parses as a repository. -/
def NewDigest (nm : List Char) (opt : NameOptions) : Except GoError Digest :=
  match splitOnChar '@' nm with
  | [base, dg] =>
    if checkDigest dg = false then
      Except.error (GoError.badName (str "digests must be in sha256 hex form"))
    else
      let base2 : List Char :=
        match NewTag base opt with
        | Except.ok t => RepositoryName t.repository
        | Except.error _ => base
      match NewRepository base2 opt with
      | Except.error e => Except.error e
      | Except.ok repo => Except.ok ⟨repo, dg⟩
  | _ => Except.error (GoError.badName (str "a digest must contain exactly one @ separator"))

/-- `name.Reference`: a tag-form or digest-form reference. -/
inductive Reference where
  | tag (t : Tag)
  | digest (d : Digest)
  deriving DecidableEq, Repr

/-- `ParseReference(s, opts)` from `ref.go`: try `NewTag`, then `NewDigest`. -/
def ParseReference (s : List Char) (opt : NameOptions) : Except GoError Reference :=
  match NewTag s opt with
  | Except.ok t => Except.ok (Reference.tag t)
  | Except.error _ =>
    match NewDigest s opt with
    | Except.ok d => Except.ok (Reference.digest d)
    | Except.error _ =>
      Except.error (GoError.badName (str "could not parse reference: " ++ s))

/-- `Reference.Context()`: the repository of either form. -/
def Context : Reference → Repository
  | Reference.tag t => t.repository
  | Reference.digest d => d.repository

/-- `Reference.Identifier()`: `TagStr()` or `DigestStr()`. -/
def Identifier : Reference → List Char
  | Reference.tag t => t.tag
  | Reference.digest d => d.digest

/-- `Reference.Name()`: `Repository.Name() + ":" + tag` or `+ "@" + digest`. -/
def Name : Reference → List Char
  | Reference.tag t => RepositoryName t.repository ++ ':' :: t.tag
  | Reference.digest d => RepositoryName d.repository ++ '@' :: d.digest

/-- `Repository.Digest(identifier)`: direct construction, no validation. -/
def repoDigest (r : Repository) (id : List Char) : Digest := ⟨r, id⟩

/-- `Repository.Tag(identifier)`: direct construction, no validation. -/
def repoTag (r : Repository) (id : List Char) : Tag := ⟨r, id⟩

/-- Registry component of a parsed reference. -/
def refRegistry (r : Reference) : List Char := RegistryName (Context r).registry

/-- Repository path of a parsed reference (`Context().RepositoryStr()`). -/
def refRepoStr (r : Reference) : List Char := RepositoryStr (Context r)

/-- Identifier kind of a reference: `true` for digest form. -/
def isDigestForm : Reference → Bool
  | Reference.tag _ => false
  | Reference.digest _ => true

/-- Does `NewRepository` keep the whole string as the repository (no part of it
is mistaken for a registry)?  True when the string has no `/`, or when its first
`/`-component contains neither `.` nor `:`. -/
def noRegistrySplit (l : List Char) : Bool :=
  match (splitFirst '/' l).2 with
  | none => true
  | some _ => !(hasChar '.' (splitFirst '/' l).1 || hasChar ':' (splitFirst '/' l).1)

/-- Build a reference with explicit components: registry `g`, raw repository
`ρ`, identifier `id` of the given kind. -/
def mkRef (g ρ id : List Char) (isDg : Bool) : Reference :=
  if isDg then Reference.digest ⟨⟨⟨g⟩, ρ⟩, id⟩ else Reference.tag ⟨⟨⟨g⟩, ρ⟩, id⟩

/-! ## `RelocateReference` (`store.go:188-203`) -/

/-- `RelocateReference(reference, registry)` from `store.go:188-203`: parse the
reference with the library defaults; re-parse its repository path with the given
registry as default; keep digest form iff `name.NewDigest` accepts the parsed
reference's full name. -/
def RelocateReference (reference registry : List Char) : Except GoError Reference :=
  match ParseReference reference defaultOpts with
  | Except.error e => Except.error e
  | Except.ok ref =>
    match ParseReference (RepositoryStr (Context ref)) ⟨registry, str "latest"⟩ with
    | Except.error e => Except.error e
    | Except.ok relocated =>
      match NewDigest (Name ref) defaultOpts with
      | Except.ok _ => Except.ok (Reference.digest (repoDigest (Context relocated) (Identifier ref)))
      | Except.error _ => Except.ok (Reference.tag (repoTag (Context relocated) (Identifier ref)))

/-- Two successive relocations, the second applied to the full name of the first
result — the composition written `relocate(relocate(ref, R1), R2)` in the spec. -/
def relocTwice (reference r1 r2 : List Char) : Except GoError Reference :=
  match RelocateReference reference r1 with
  | Except.error e => Except.error e
  | Except.ok ref1 => RelocateReference (Name ref1) r2

/-! ## Data model of the store -/

/-- OCI image-spec `Descriptor` (`mediaType`, `digest`, `size`, annotations), as
committed into the store's index. -/
structure Descriptor where
  mediaType : List Char
  digest : List Char
  size : Int
  annots : List (List Char × List Char)
  deriving DecidableEq, Repr

/-- The Go zero value `ocispec.Descriptor{}` returned on `AddArtifact` error
paths (`store.go:59,70,74`). -/
def zeroDescriptor : Descriptor := ⟨[], [], 0, []⟩

/-- A content blob: digest plus bytes. -/
structure Blob where
  digest : List Char
  bytes : List Nat
  deriving DecidableEq, Repr

/-- Modelled from the spec: `pkg/artifact.OCI` (absent from `src/`), the
capability contract of §4.2/§6 — an adapter that yields a manifest `Descriptor`
plus the referenced blobs on demand; `produced = none` embeds a production
failure (`ArtifactProductionError`). -/
structure OCIArtifact where
  manifest : Option Descriptor
  blobs : List Blob
  deriving Repr

/-- Outcome of one blob-cache lookup: hit with bytes, miss, or an I/O failure of
the cache's own backing store. -/
inductive CacheResult where
  | hit (bytes : List Nat)
  | miss
  | failed
  deriving Repr

/-- Modelled from the spec: the cache capability of §4.1/§6 (`internal/cache`,
absent from `src/`) — a content-addressed side table keyed by blob digest. -/
structure Cache where
  lookup : List Char → CacheResult

/-- Modelled from the spec: `cache.Oci(oci, cache)` (§4.1, `internal/cache`
absent from `src/`) — decorates the artifact so each blob fetch first consults
the cache: a hit returns the cached bytes without invoking the producer, a miss
produces (and populates the cache), and a cache failure falls through to
uncached production.  Cache population mutates only the cache, never the store,
so it is not threaded here. -/
def cacheOci (a : OCIArtifact) (c : Cache) : OCIArtifact :=
  { a with
    blobs := a.blobs.map fun b =>
      match c.lookup b.digest with
      | CacheResult.hit bs => { b with bytes := bs }
      | CacheResult.miss => b
      | CacheResult.failed => b }

/-- `store.Store` (`store.go:23-28`): the configuration injected at `NewStore`
time that `AddArtifact` consults — here the optional cache (`store.go:62-65`).
The OCI backing directory itself is the `StoreState` below. -/
structure Store where
  cache : Option Cache

/-- The persistent content of one store: the reference index (`index.json`,
reference name → manifest descriptor, in index enumeration order) and the
committed blobs (`blobs/`). -/
structure StoreState where
  index : List (List Char × Descriptor)
  blobs : List Blob
  deriving DecidableEq, Repr

/-- Update the index for a reference name: a tag-form reference maps to at most
one manifest at a time, last write wins (spec §3). -/
def upsertIndex (idx : List (List Char × Descriptor)) (nm : List Char) (d : Descriptor) :
    List (List Char × Descriptor) :=
  if idx.any (fun e => decide (e.1 = nm)) then
    idx.map (fun e => if e.1 = nm then (nm, d) else e)
  else idx ++ [(nm, d)]

/-- Add one blob to the store, de-duplicating by digest (spec §4.2: commits
write disjoint blob sets keyed by digest, digest-identical blobs de-duplicate). -/
def addBlob (bs : List Blob) (b : Blob) : List Blob :=
  if bs.any (fun x => decide (x.digest = b.digest)) then bs else bs ++ [b]

/-- Modelled from the spec: `stage.commit(store)` (§4.2, `layout.go` absent from
`src/`) — copies the staged layout into the store as one descriptor-indexed
entry tagged by the staged reference, returning the manifest descriptor. -/
def commitStage (s : StoreState) (nm : List Char) (d : Descriptor) (blobs : List Blob) :
    StoreState :=
  { index := upsertIndex s.index nm d
    blobs := blobs.foldl addBlob s.blobs }

/-- The artifact actually staged by `AddArtifact`: the input, cache-wrapped when
the store has a cache (`store.go:62-65`). -/
def effectiveArtifact (st : Store) (oci : OCIArtifact) : OCIArtifact :=
  match st.cache with
  | some c => cacheOci oci c
  | none => oci

/-- The parse options used by `AddArtifact` (`store.go:68`):
`name.WithDefaultRegistry("")` — so that `index.docker.io` is not prepended —
and `name.WithDefaultTag("latest")`. -/
def addOpts : NameOptions := ⟨[], str "latest"⟩

/-- `Store.AddArtifact` (`store.go:56-77`): create a staging layout, cache-wrap
the artifact when a cache is configured (`effectiveArtifact`; the wrapping at
`store.go:62-65` precedes parsing, and being pure it is referenced here where
its result is consumed), parse the reference with an empty default registry and
`latest` default tag (wrapping a parse failure with "adding artifact"), stage
the artifact, and commit the stage into the store.
`newLayout`, `stage.add` and `stage.commit` live in `layout.go`, absent from
`src/`; they are modelled from the spec (§4.2): staging is isolated, so a parse
or production failure leaves the store untouched, and a successful commit is the
only path by which content enters the store.  Returns Go-style
`(Descriptor, error)` together with the mutated store state. -/
def AddArtifact (st : Store) (s : StoreState) (oci : OCIArtifact) (reference : List Char) :
    StoreState × Descriptor × Option GoError :=
  match ParseReference reference addOpts with
  | Except.error e => (s, zeroDescriptor, some (GoError.wrap (str "adding artifact") e))
  | Except.ok ref =>
    match (effectiveArtifact st oci).manifest with
    | none => (s, zeroDescriptor, some (GoError.production (str "failed to produce artifact")))
    | some d => (commitStage s (Name ref) d (effectiveArtifact st oci).blobs, d, none)

/-- Modelled from the spec: the collection capability of §6 (`pkg/artifact`,
absent from `src/`) — `Contents()` yields a mapping reference → artifact, or
fails; the mapping is embedded as the sequence of pairs in the (unspecified) Go
map iteration order of `store.go:87`. -/
structure Collection where
  contents : Except GoError (List (List Char × OCIArtifact))

/-- The loop body of `Store.AddCollection` (`store.go:86-93`): call
`AddArtifact` for each pair in turn, accumulating descriptors; on the first
failure return `(nil, err)` immediately, keeping the store state already
committed. -/
def addCollectionLoop (st : Store) : StoreState → List (List Char × OCIArtifact) →
    List Descriptor → StoreState × List Descriptor × Option GoError
  | s, [], descs => (s, descs, none)
  | s, (ref, oci) :: rest, descs =>
    match AddArtifact st s oci ref with
    | (s', ds, none) => addCollectionLoop st s' rest (descs ++ [ds])
    | (s', _, some e) => (s', [], some e)

/-- `Store.AddCollection` (`store.go:80-96`): fetch the collection's contents
(`nil, err` on failure), then add each (reference, artifact) pair in turn,
fail-fast. -/
def AddCollection (st : Store) (s : StoreState) (coll : Collection) :
    StoreState × List Descriptor × Option GoError :=
  match coll.contents with
  | Except.error e => (s, [], some e)
  | Except.ok cnts => addCollectionLoop st s cnts []

/-- The state committed by successfully adding every pair of `items` in turn —
the reference value for the fail-fast theorems about `AddCollection`. -/
def commitAllItems (st : Store) (s : StoreState) (items : List (List Char × OCIArtifact)) :
    StoreState :=
  items.foldl (fun acc p => (AddArtifact st acc p.2 p.1).1) s

/-- Does `AddArtifact` succeed on this (reference, artifact) pair?  Success
depends only on the pair (reference parse + artifact production), not on the
store state the pair is committed into. -/
def itemOk (st : Store) (p : List Char × OCIArtifact) : Bool :=
  (match ParseReference p.1 addOpts with
   | Except.ok _ => true
   | Except.error _ => false)
    && ((effectiveArtifact st p.2).manifest).isSome

/-- The error `AddArtifact` returns when the step for pair `p` fails: the
wrapped parse error, or the production failure. -/
def addErr (_st : Store) (p : List Char × OCIArtifact) : GoError :=
  match ParseReference p.1 addOpts with
  | Except.error e => GoError.wrap (str "adding artifact") e
  | Except.ok _ => GoError.production (str "failed to produce artifact")

/-! ## The on-disk layout and `Flush` -/

/-- A filesystem path, as a sequence of components. -/
abbrev FsPath : Type := List (List Char)

/-- Is `p` an ancestor-or-self of `q` (i.e. is `q` inside the subtree rooted at
`p`)?  `os.RemoveAll p` removes exactly the nodes satisfying this. -/
def isUnder : FsPath → FsPath → Bool
  | [], _ => true
  | _ :: _, [] => false
  | a :: as, b :: bs => if a = b then isUnder as bs else false

/-- A filesystem, embedded as the set (list) of existing nodes, each node being
the path at which a file or directory exists. -/
abbrev Fs : Type := List FsPath

/-- `os.RemoveAll(p)`: delete the subtree rooted at `p`.  Go documents that a
non-existent path is not an error — removal of nothing succeeds — so, absent
environmental I/O failures (not modelled), `RemoveAll` is total. -/
def removeAll (p : FsPath) (fs : Fs) : Fs :=
  fs.filter (fun q => !isUnder p q)

/-- `Store.Flush` (`store.go:101-118`): delete `blobs/`, `index.json` and
`oci-layout` beneath the store root, in that order, and nothing else. -/
def Flush (root : FsPath) (fs : Fs) : Fs :=
  removeAll (root ++ [str "oci-layout"])
    (removeAll (root ++ [str "index.json"])
      (removeAll (root ++ [str "blobs"]) fs))

/-! ## Enumeration, copying, identification -/

/-- `s.store.ListReferences()`: the reference index of the backing OCI layout
(reference name → descriptor), in index enumeration order. -/
def ListReferences (s : StoreState) : List (List Char × Descriptor) := s.index

/-- `Store.Walk` (`store.go:129-138`): invoke `fn` on each indexed descriptor in
enumeration order, stopping at and returning the first error.  The visit
function's closure effects are embedded as an explicit state `σ`. -/
def Walk {σ : Type} (fn : σ → Descriptor → σ × Option GoError) :
    List (List Char × Descriptor) → σ → σ × Option GoError
  | [], st => (st, none)
  | (_, d) :: rest, st =>
    match fn st d with
    | (st', none) => Walk fn rest st'
    | (st', some e) => (st', some e)

/-- The visit state reached after visiting the descriptors of `refs` in order —
the reference value for the `Walk` theorems. -/
def visitAll {σ : Type} (fn : σ → Descriptor → σ × Option GoError)
    (refs : List (List Char × Descriptor)) (st : σ) : σ :=
  refs.foldl (fun s p => (fn s p.2).1) st

/-- Modelled from the spec: the transfer primitive consumed by `Copy`/`CopyAll`
(§6, `oras.Copy` — an external collaborator): copying a source reference to a
destination reference either yields the copied manifest descriptor or fails.
The outcome abstracts reading this store and writing the target, including the
`WithAdditionalCachedMediaTypes(DockerManifestSchema2)` option of
`store.go:144`, which only widens what the primitive treats as copyable. -/
structure Target where
  outcome : List Char → List Char → Option Descriptor

/-- What has been copied into a target so far: destination name → descriptor. -/
abbrev TargetState : Type := List (List Char × Descriptor)

/-- `Store.Copy` (`store.go:142-145`) wrapping the transfer primitive: on
success the target gains the manifest under the destination name — an empty
`toRef` means "keep the source name" (spec §4.3) — and on failure the target's
reference index is unchanged. -/
def Copy (t : Target) (ts : TargetState) (ref toRef : List Char) :
    TargetState × Descriptor × Option GoError :=
  match t.outcome ref toRef with
  | some d => (ts ++ [(if toRef = [] then ref else toRef, d)], d, none)
  | none => (ts, zeroDescriptor, some (GoError.copyFailed ref))

/-- The destination name computed for one reference at `store.go:150-157`:
`toRef` starts as the empty string and, when a mapper is given, becomes the
mapper's output (or the loop returns the mapper's error). -/
def mapperOut (toMapper : Option (List Char → Except GoError (List Char)))
    (ref : List Char) : Except GoError (List Char) :=
  match toMapper with
  | none => Except.ok []
  | some m => m ref

/-- The loop body of `Store.CopyAll` (`store.go:149-163`): for each reference,
compute the destination via the mapper when one is given (returning its error
immediately on failure), call `Copy`, and stop at the first copy error. -/
def copyAllLoop (t : Target) (toMapper : Option (List Char → Except GoError (List Char))) :
    List (List Char) → TargetState → TargetState × Option GoError
  | [], ts => (ts, none)
  | ref :: rest, ts =>
    match mapperOut toMapper ref with
    | Except.error e => (ts, some e)
    | Except.ok toRef =>
      match Copy t ts ref toRef with
      | (ts', _, none) => copyAllLoop t toMapper rest ts'
      | (ts', _, some e) => (ts', some e)

/-- `Store.CopyAll` (`store.go:148-165`): enumerate all references in the store
and copy each, fail-fast; a `nil` mapper passes the empty destination name. -/
def CopyAll (s : StoreState) (t : Target) (ts : TargetState)
    (toMapper : Option (List Char → Except GoError (List Char))) :
    TargetState × Option GoError :=
  copyAllLoop t toMapper ((ListReferences s).map Prod.fst) ts

/-- The target state after successfully copying every reference of `refs` in
turn under `toMapper` — the reference value for the `CopyAll` fail-fast theorem. -/
def copyAllOk (t : Target) (toMapper : Option (List Char → Except GoError (List Char)))
    (refs : List (List Char)) (ts : TargetState) : TargetState :=
  refs.foldl
    (fun acc ref =>
      match mapperOut toMapper ref with
      | Except.ok toRef => (Copy t acc ref toRef).1
      | Except.error _ => acc)
    ts

/-- Does the `CopyAll` loop step for `ref` succeed?  Success of one step depends
only on the mapper's and the transfer primitive's outcome for that reference,
not on the target state accumulated so far. -/
def copyItemOk (t : Target) (toMapper : Option (List Char → Except GoError (List Char)))
    (ref : List Char) : Bool :=
  match mapperOut toMapper ref with
  | Except.error _ => false
  | Except.ok toRef => (t.outcome ref toRef).isSome

/-- The error the `CopyAll` loop returns when the step for `ref` fails: the
mapper's error, or the transfer failure. -/
def copyItemErr (_t : Target) (toMapper : Option (List Char → Except GoError (List Char)))
    (ref : List Char) : GoError :=
  match mapperOut toMapper ref with
  | Except.error e => e
  | Except.ok _ => GoError.copyFailed ref

/-- Result of `s.store.Fetch` followed by JSON decoding, for `Identify`: the
fetch itself can fail, the fetched bytes can fail to decode into a struct with a
`config.mediaType` field, or decoding succeeds yielding that field (Go's zero
value, the empty string, when the JSON object carries no such field).  `Fetch`
and `encoding/json` are external collaborators, embedded at this boundary. -/
inductive FetchResult where
  | failed
  | undecodable
  | doc (configMediaType : List Char)
  deriving Repr

/-- The readable content of the store backing `Identify`: what fetching and
decoding each descriptor yields. -/
structure ContentReader where
  fetch : Descriptor → FetchResult

/-- `Store.Identify` (`store.go:168-185`): fetch the object and decode it as a
manifest with a `config.mediaType` field; return that media type, or the empty
string on any fetch or decode failure.  The Go signature returns only `string`:
no error value exists to propagate. -/
def Identify (cr : ContentReader) (desc : Descriptor) : List Char :=
  match cr.fetch desc with
  | FetchResult.failed => []
  | FetchResult.undecodable => []
  | FetchResult.doc mt => mt

/-! ## Predicates used by the theorems -/

/-- Do all the visits over `refs`, started from visit state `st`, succeed (each
invocation evaluated at the visit state reached at its position)? -/
def visitsOk {σ : Type} (fn : σ → Descriptor → σ × Option GoError) :
    List (List Char × Descriptor) → σ → Bool
  | [], _ => true
  | y :: rest, st =>
    match fn st y.2 with
    | (st', none) => visitsOk fn rest st'
    | (_, some _) => false

/-- Is the cache's answer for blob `b` coherent?  A content-addressed cache
entry for `b.digest` must hold exactly `b`'s bytes; misses and cache failures
are always coherent. -/
def blobCoherent (c : Cache) (b : Blob) : Bool :=
  match c.lookup b.digest with
  | CacheResult.hit bs => decide (bs = b.bytes)
  | CacheResult.miss => true
  | CacheResult.failed => true

/-- Well-formedness of a registry component produced by parsing with the
library defaults: non-empty, passing `checkRegistry`, and containing a `.` or
`:` (either it is `index.docker.io`, or it was recognised as a registry by the
dot/colon heuristic of `NewRepository`). -/
def RegWF (g : List Char) : Prop :=
  g ≠ [] ∧ checkRegistry g = true ∧ (hasChar '.' g || hasChar ':' g) = true

/-- The identifier of a parsed reference passes its form's validation. -/
def idOk : Reference → Bool
  | Reference.tag t => checkTag t.tag
  | Reference.digest d => checkDigest d.digest

/-- Well-formedness of any reference produced by `ParseReference` with the
library defaults. -/
def RefWF (r : Reference) : Prop :=
  RegWF (Context r).registry.registry
    ∧ checkRepository (Context r).repository = true ∧ idOk r = true

/-! ## Concrete inputs for the witnesses -/

/-- A concrete descriptor for witnesses. -/
def descW (nm : String) : Descriptor := ⟨str "type", str nm, 1, []⟩

/-- A concrete visit function for the `Walk` witness: logs every descriptor it
is invoked on, and fails on the descriptor with digest `bad`. -/
def visitW (s : List Descriptor) (d : Descriptor) : List Descriptor × Option GoError :=
  (s ++ [d], if d.digest = str "bad" then some (GoError.visit (str "boom")) else none)

/-- A store with no cache configured, for witnesses. -/
def storeW : Store := ⟨none⟩

/-- A producible concrete artifact for witnesses. -/
def artW (nm : String) : OCIArtifact := ⟨some (descW nm), [⟨str nm, [7]⟩]⟩

/-- An artifact whose production fails, for witnesses. -/
def artBad : OCIArtifact := ⟨none, []⟩

/-- A concrete target for the `CopyAll` witness: the transfer primitive
succeeds on every reference, committing one fixed descriptor. -/
def targetW : Target := ⟨fun _ _ => some (descW "m")⟩

/-- A concrete mapper for the `CopyAll` witness: fails on reference `r3`, keeps
the source name otherwise. -/
def mapperW (r : List Char) : Except GoError (List Char) :=
  if r = str "r3" then Except.error (GoError.mapper (str "bad mapping")) else Except.ok []

/-- A concrete cache for the C9 witness: hits on digest `b1` with the right
bytes, fails on `b2`, misses everything else. -/
def cacheW : Cache :=
  ⟨fun k =>
    if k = str "b1" then CacheResult.hit [7]
    else if k = str "b2" then CacheResult.failed
    else CacheResult.miss⟩

/-- An artifact with three blobs exercising hit, cache-failure and miss paths. -/
def artC : OCIArtifact :=
  ⟨some (descW "mc"), [⟨str "b1", [7]⟩, ⟨str "b2", [8]⟩, ⟨str "b3", [9]⟩]⟩

/-- A concrete filesystem for the `Flush` witness: a store directory holding
the three OCI-layout entries, a blob beneath `blobs/`, an unrelated entry
inside the store root, and a sibling outside it. -/
def fsW : Fs :=
  [[], [str "store"], [str "store", str "blobs"], [str "store", str "blobs", str "sha256"],
    [str "store", str "index.json"], [str "store", str "oci-layout"],
    [str "store", str "other"], [str "sibling"]]

/-! # Theorems

## Supporting lemmas about the filesystem model -/

lemma isUnder_append_right (p : FsPath) (x : List Char) (q : FsPath)
    (h : isUnder (p ++ [x]) q = true) : isUnder p q = true := by
  induction p generalizing q with
  | nil => rfl
  | cons a as ih =>
    cases q with
    | nil => simp [isUnder] at h
    | cons b bs =>
      simp only [List.cons_append, isUnder] at h ⊢
      split at h
      · next hab => simpa [hab] using ih bs h
      · exact absurd h (by simp)

lemma isUnder_append_self (p : FsPath) (x : List Char) : isUnder (p ++ [x]) p = false := by
  induction p with
  | nil => rfl
  | cons a as ih =>
    simp only [List.cons_append, isUnder]
    split
    · exact ih
    · rfl

lemma mem_removeAll {q : FsPath} {p : FsPath} {fs : Fs} :
    q ∈ removeAll p fs ↔ q ∈ fs ∧ isUnder p q = false := by
  unfold removeAll
  rw [List.mem_filter, Bool.not_eq_true']

lemma filter_self_idem {α : Type} (f : α → Bool) (l : List α) :
    (l.filter f).filter f = l.filter f := by
  induction l with
  | nil => rfl
  | cons x xs ih =>
    cases h : f x <;> simp [List.filter_cons, h, ih]

lemma flush_eq_filter (root : FsPath) (fs : Fs) :
    Flush root fs =
      fs.filter (fun q =>
        !isUnder (root ++ [str "oci-layout"]) q
          && (!isUnder (root ++ [str "index.json"]) q
            && !isUnder (root ++ [str "blobs"]) q)) := by
  unfold Flush removeAll
  rw [List.filter_filter, List.filter_filter]
  exact List.filter_congr (fun x _ => by rw [Bool.and_assoc])

/-! ## C2: `Flush` frame and idempotence -/

/-- C2.  `Flush` deletes exactly the subtrees rooted at `blobs/`, `index.json`
and `oci-layout` beneath the store root and nothing else: a node survives iff it
existed before and lies under none of those three paths; in particular the store
root itself and every node outside the root's subtree are untouched.  `Flush`
is a total function of the filesystem — `os.RemoveAll` does not fail on an
absent path — and is idempotent, so flushing an already-flushed (or empty)
store is a no-op, not an error. -/
theorem flush_scope (root : FsPath) (fs : Fs) :
    (∀ q : FsPath,
      q ∈ Flush root fs ↔
        q ∈ fs ∧ isUnder (root ++ [str "blobs"]) q = false
          ∧ isUnder (root ++ [str "index.json"]) q = false
          ∧ isUnder (root ++ [str "oci-layout"]) q = false)
    ∧ (root ∈ Flush root fs ↔ root ∈ fs)
    ∧ (∀ q : FsPath, isUnder root q = false → (q ∈ Flush root fs ↔ q ∈ fs))
    ∧ Flush root (Flush root fs) = Flush root fs := by
  have hmem : ∀ q : FsPath,
      q ∈ Flush root fs ↔
        q ∈ fs ∧ isUnder (root ++ [str "blobs"]) q = false
          ∧ isUnder (root ++ [str "index.json"]) q = false
          ∧ isUnder (root ++ [str "oci-layout"]) q = false := by
    intro q
    unfold Flush
    rw [mem_removeAll, mem_removeAll, mem_removeAll]
    tauto
  refine ⟨hmem, ?_, ?_, ?_⟩
  · rw [hmem root]
    have h1 := isUnder_append_self root (str "blobs")
    have h2 := isUnder_append_self root (str "index.json")
    have h3 := isUnder_append_self root (str "oci-layout")
    tauto
  · intro q hq
    rw [hmem q]
    constructor
    · exact fun h => h.1
    · intro h
      refine ⟨h, ?_, ?_, ?_⟩ <;> {
        cases hu : isUnder (root ++ [_]) q
        · rfl
        · exact absurd (isUnder_append_right _ _ _ hu) (by rw [hq]; simp) }
  · rw [flush_eq_filter, flush_eq_filter, filter_self_idem]

/-- Witness for C2 at a concrete filesystem: after `Flush`, the blob under
`blobs/` is gone, the unrelated entry inside the store root survives, the
sibling outside the root survives, the store root itself survives, and a
second `Flush` changes nothing. -/
theorem flush_scope_witness :
    [str "store", str "blobs", str "sha256"] ∉ Flush [str "store"] fsW
    ∧ ([str "store", str "other"] ∈ Flush [str "store"] fsW
        ↔ [str "store", str "other"] ∈ fsW)
    ∧ ([str "sibling"] ∈ Flush [str "store"] fsW ↔ [str "sibling"] ∈ fsW)
    ∧ ([str "store"] ∈ Flush [str "store"] fsW ↔ [str "store"] ∈ fsW)
    ∧ Flush [str "store"] (Flush [str "store"] fsW) = Flush [str "store"] fsW := by
  refine ⟨?_, ?_, ?_, ?_, (flush_scope [str "store"] fsW).2.2.2⟩
  · rw [(flush_scope [str "store"] fsW).1]
    decide
  · constructor
    · exact fun h => ((flush_scope [str "store"] fsW).1 _ |>.mp h).1
    · intro h
      rw [(flush_scope [str "store"] fsW).1]
      exact ⟨h, by decide, by decide, by decide⟩
  · exact (flush_scope [str "store"] fsW).2.2.1 [str "sibling"] (by decide)
  · exact (flush_scope [str "store"] fsW).2.1

/-! ## C7: `Identify` is best-effort and never errors -/

/-- C7.  `Identify` fetches the object and attempts to decode it as a manifest
with a `config.mediaType` field, returning that media type on success; on a
fetch failure or a decode failure it returns the empty string.  Its return type
carries no error value, so no error is ever returned or propagated. -/
theorem identify_best_effort (cr : ContentReader) (d : Descriptor) :
    (cr.fetch d = FetchResult.failed → Identify cr d = [])
    ∧ (cr.fetch d = FetchResult.undecodable → Identify cr d = [])
    ∧ (∀ mt, cr.fetch d = FetchResult.doc mt → Identify cr d = mt) := by
  refine ⟨?_, ?_, ?_⟩ <;> intro h <;> try intro hh
  all_goals first
    | (unfold Identify; rw [h])
    | (unfold Identify; rw [hh])

/-- Witness for C7 at concrete inputs: a reader whose fetch decodes to config
media type `cfg`, and one whose fetch fails. -/
theorem identify_best_effort_witness :
    Identify ⟨fun _ => FetchResult.doc (str "cfg")⟩ zeroDescriptor = str "cfg"
    ∧ Identify ⟨fun _ => FetchResult.failed⟩ zeroDescriptor = [] := by
  constructor
  · exact (identify_best_effort ⟨fun _ => FetchResult.doc (str "cfg")⟩ zeroDescriptor).2.2
      (str "cfg") rfl
  · exact (identify_best_effort ⟨fun _ => FetchResult.failed⟩ zeroDescriptor).1 rfl

/-! ## C8: `Walk` visits in order and stops at the first error -/

lemma visitAll_nil {σ : Type} (fn : σ → Descriptor → σ × Option GoError) (st : σ) :
    visitAll fn [] st = st := rfl

lemma visitAll_cons {σ : Type} (fn : σ → Descriptor → σ × Option GoError)
    (y : List Char × Descriptor) (l : List (List Char × Descriptor)) (st : σ) :
    visitAll fn (y :: l) st = visitAll fn l (fn st y.2).1 := rfl

/-- C8.  `Walk` invokes the visit function once per indexed descriptor in
enumeration order.  First conjunct: when every invocation returns no error,
`Walk` performs all the visits in order and returns success (`none`).  Second
conjunct: when the visits over `pre` all succeed and the visit of `x` fails
with `e`, `Walk` performs exactly the visits of `pre` and of `x`, returns that
first error, and never visits the descriptors after `x`. -/
theorem walk_failfast {σ : Type} (fn : σ → Descriptor → σ × Option GoError) :
    (∀ (refs : List (List Char × Descriptor)) (st : σ),
      visitsOk fn refs st = true →
      Walk fn refs st = (visitAll fn refs st, none))
    ∧ (∀ (pre : List (List Char × Descriptor)) (x : List Char × Descriptor)
        (post : List (List Char × Descriptor)) (st : σ) (e : GoError),
      visitsOk fn pre st = true →
      (fn (visitAll fn pre st) x.2).2 = some e →
      Walk fn (pre ++ x :: post) st = ((fn (visitAll fn pre st) x.2).1, some e)) := by
  constructor
  · intro refs
    induction refs with
    | nil => intro st _; rfl
    | cons y rest ih =>
      intro st hok
      unfold visitsOk at hok
      cases hfn : fn st y.2 with
      | mk st' e' =>
        rw [hfn] at hok
        cases e' with
        | some e => simp at hok
        | none =>
          show (match fn st y.2 with
                | (s, none) => Walk fn rest s
                | (s, some e) => (s, some e)) = (visitAll fn (y :: rest) st, none)
          rw [visitAll_cons, hfn]
          exact ih st' hok
  · intro pre
    induction pre with
    | nil =>
      intro x post st e _ hx
      rw [visitAll_nil] at hx ⊢
      show (match fn st x.2 with
            | (s, none) => Walk fn post s
            | (s, some e) => (s, some e)) = ((fn st x.2).1, some e)
      cases hfn : fn st x.2 with
      | mk st' e' =>
        rw [hfn] at hx
        simp only at hx
        subst hx
        rfl
    | cons y pre' ih =>
      intro x post st e hok hx
      unfold visitsOk at hok
      cases hfn : fn st y.2 with
      | mk st' e' =>
        rw [hfn] at hok
        cases e' with
        | some e2 => simp at hok
        | none =>
          rw [visitAll_cons, hfn] at hx ⊢
          show (match fn st y.2 with
                | (s, none) => Walk fn (pre' ++ x :: post) s
                | (s, some e) => (s, some e)) = _
          rw [hfn]
          exact ih x post st' e hok hx

/-- Witness for C8 at concrete inputs: over an index of three entries whose
second descriptor fails the visit, `Walk` logs exactly the first two
descriptors and returns the visit error, and over the first entry alone it logs
that descriptor and succeeds. -/
theorem walk_failfast_witness :
    Walk visitW
        [(str "a", descW "d1"), (str "b", ⟨str "type", str "bad", 1, []⟩),
          (str "c", descW "d3")] []
      = ([descW "d1", ⟨str "type", str "bad", 1, []⟩], some (GoError.visit (str "boom")))
    ∧ Walk visitW [(str "a", descW "d1")] [] = ([descW "d1"], none) := by
  constructor
  · have h := (walk_failfast visitW).2 [(str "a", descW "d1")]
      (str "b", ⟨str "type", str "bad", 1, []⟩) [(str "c", descW "d3")] []
      (GoError.visit (str "boom")) (by decide) (by decide)
    exact h.trans (by decide)
  · have h := (walk_failfast visitW).1 [(str "a", descW "d1")] [] (by decide)
    exact h.trans (by decide)

/-! ## C1 and C10: `AddCollection` fail-fast, partial progress, nil results -/

lemma addArtifact_of_bad {st : Store} {p : List Char × OCIArtifact}
    (h : itemOk st p = false) (s : StoreState) :
    AddArtifact st s p.2 p.1 = (s, zeroDescriptor, some (addErr st p)) := by
  unfold itemOk at h
  unfold AddArtifact addErr
  cases hp : ParseReference p.1 addOpts with
  | error e => rfl
  | ok ref =>
    rw [hp] at h
    simp only [Bool.true_and] at h
    cases hm : (effectiveArtifact st p.2).manifest with
    | none => rfl
    | some d => rw [hm] at h; simp at h

lemma addArtifact_no_err_of_ok {st : Store} {p : List Char × OCIArtifact}
    (h : itemOk st p = true) (s : StoreState) :
    (AddArtifact st s p.2 p.1).2.2 = none := by
  unfold itemOk at h
  unfold AddArtifact
  cases hp : ParseReference p.1 addOpts with
  | error e => rw [hp] at h; simp at h
  | ok ref =>
    rw [hp] at h
    simp only [Bool.true_and, Option.isSome_iff_exists] at h
    obtain ⟨d, hd⟩ := h
    rw [hd]

lemma addCollectionLoop_failfast {st : Store} {x : List Char × OCIArtifact}
    (post : List (List Char × OCIArtifact)) :
    ∀ (pre : List (List Char × OCIArtifact)), (∀ p ∈ pre, itemOk st p = true) →
      itemOk st x = false →
      ∀ (s : StoreState) (descs : List Descriptor),
        addCollectionLoop st s (pre ++ x :: post) descs =
          (commitAllItems st s pre, [], some (addErr st x)) := by
  intro pre
  induction pre with
  | nil =>
    intro _ hx s descs
    show addCollectionLoop st s (x :: post) descs = _
    unfold addCollectionLoop
    rw [addArtifact_of_bad hx s]
    rfl
  | cons p pre' ih =>
    intro hpre hx s descs
    have hp : itemOk st p = true := hpre p (by simp)
    show addCollectionLoop st s (p :: (pre' ++ x :: post)) descs = _
    unfold addCollectionLoop
    have hnone := addArtifact_no_err_of_ok hp s
    cases hA : AddArtifact st s p.2 p.1 with
    | mk s' rest =>
      cases rest with
      | mk ds e' =>
        rw [hA] at hnone
        simp only at hnone
        subst hnone
        show addCollectionLoop st s' (pre' ++ x :: post) (descs ++ [ds]) = _
        rw [ih (fun q hq => hpre q (by simp [hq])) hx s' (descs ++ [ds])]
        have : commitAllItems st s (p :: pre') = commitAllItems st s' pre' := by
          unfold commitAllItems
          rw [List.foldl_cons, hA]
        rw [this]

/-- C1.  `AddCollection` on contents that enumerate as `pre ++ x :: post`,
where every pair in `pre` succeeds and the pair `x` fails (bad reference or
failed production), calls `AddArtifact` on each pair in turn, aborts at `x`, and
returns `x`'s error: the resulting store state is exactly the sequential commit
of the pairs in `pre` — every item committed before the failing one remains, no
rollback — and neither `x` nor any pair after it is committed. -/
theorem addCollection_failfast (st : Store) (s : StoreState)
    (pre : List (List Char × OCIArtifact)) (x : List Char × OCIArtifact)
    (post : List (List Char × OCIArtifact))
    (hpre : ∀ p ∈ pre, itemOk st p = true) (hx : itemOk st x = false) :
    AddCollection st s ⟨Except.ok (pre ++ x :: post)⟩ =
      (commitAllItems st s pre, [], some (addErr st x)) := by
  unfold AddCollection
  exact addCollectionLoop_failfast post pre hpre hx s []

/-- Witness for C1: the spec's partial-progress scenario — a collection of
three items whose second fails production.  `AddCollection` returns an error
and a nil descriptor list, item 1 is committed in the store, and items 2 and 3
are absent. -/
theorem addCollection_failfast_witness :
    AddCollection storeW ⟨[], []⟩
        ⟨Except.ok [(str "it1:v1", artW "m1"), (str "it2:v1", artBad), (str "it3:v1", artW "m3")]⟩
      = (⟨[(str "it1:v1", descW "m1")], [⟨str "m1", [7]⟩]⟩, [],
          some (GoError.production (str "failed to produce artifact"))) := by
  have h := addCollection_failfast storeW ⟨[], []⟩ [(str "it1:v1", artW "m1")]
    (str "it2:v1", artBad) [(str "it3:v1", artW "m3")] (by decide) (by decide)
  exact h.trans (by decide)

lemma addCollectionLoop_nil_of_err {st : Store} :
    ∀ (cnts : List (List Char × OCIArtifact)) (s : StoreState) (descs : List Descriptor),
      ((addCollectionLoop st s cnts descs).2.2).isSome = true →
      (addCollectionLoop st s cnts descs).2.1 = [] := by
  intro cnts
  induction cnts with
  | nil => intro s descs h; simp [addCollectionLoop] at h
  | cons p rest ih =>
    intro s descs h
    unfold addCollectionLoop at h ⊢
    cases hA : AddArtifact st s p.2 p.1 with
    | mk s' r =>
      cases r with
      | mk ds e' =>
        rw [hA] at h
        cases e' with
        | none => exact ih s' (descs ++ [ds]) h
        | some e => rfl

/-- C10.  `AddCollection` returns a nil descriptor list alongside every error —
the descriptors of items already committed before the failure are discarded,
not reported — and `AddArtifact` returns the zero `Descriptor` alongside every
error. -/
theorem error_results_are_nil :
    (∀ (st : Store) (s : StoreState) (coll : Collection),
      ((AddCollection st s coll).2.2).isSome = true → (AddCollection st s coll).2.1 = [])
    ∧ (∀ (st : Store) (s : StoreState) (oci : OCIArtifact) (ref : List Char),
      ((AddArtifact st s oci ref).2.2).isSome = true →
        (AddArtifact st s oci ref).2.1 = zeroDescriptor) := by
  constructor
  · intro st s coll h
    unfold AddCollection at h ⊢
    cases hc : coll.contents with
    | error e => rfl
    | ok cnts =>
      rw [hc] at h
      exact addCollectionLoop_nil_of_err cnts s [] h
  · intro st s oci ref h
    unfold AddArtifact at h ⊢
    cases hp : ParseReference ref addOpts with
    | error e => rfl
    | ok r =>
      cases hm : (effectiveArtifact st oci).manifest with
      | none => rfl
      | some d =>
        rw [hp, hm] at h
        simp at h

/-- Witness for C10 at concrete inputs: the failing three-item collection of
the C1 scenario yields a nil descriptor list, and a failing `AddArtifact`
yields the zero descriptor. -/
theorem error_results_are_nil_witness :
    (AddCollection storeW ⟨[], []⟩
        ⟨Except.ok [(str "it1:v1", artW "m1"), (str "it2:v1", artBad),
          (str "it3:v1", artW "m3")]⟩).2.1 = []
    ∧ (AddArtifact storeW ⟨[], []⟩ artBad (str "it2:v1")).2.1 = zeroDescriptor := by
  constructor
  · exact error_results_are_nil.1 storeW ⟨[], []⟩
      ⟨Except.ok [(str "it1:v1", artW "m1"), (str "it2:v1", artBad),
        (str "it3:v1", artW "m3")]⟩ (by decide)
  · exact error_results_are_nil.2 storeW ⟨[], []⟩ artBad (str "it2:v1") (by decide)

/-! ## Supporting lemmas about the string helpers -/

lemma hasChar_cons (c x : Char) (xs : List Char) :
    hasChar c (x :: xs) = if x = c then true else hasChar c xs := rfl

lemma hasChar_append (c : Char) (a b : List Char) :
    hasChar c (a ++ b) = (hasChar c a || hasChar c b) := by
  induction a with
  | nil => rfl
  | cons x xs ih =>
    by_cases hx : x = c <;> simp [hasChar_cons, hx, ih]

lemma hasChar_false_of_all {l : List Char} {p : Char → Bool} {x : Char}
    (h : l.all p = true) (hx : p x = false) : hasChar x l = false := by
  induction l with
  | nil => rfl
  | cons y ys ih =>
    rw [List.all_cons, Bool.and_eq_true] at h
    rw [hasChar_cons]
    split
    · next hyx => rw [hyx] at h; rw [h.1] at hx; exact absurd hx (by simp)
    · exact ih h.2

lemma all_false_of_hasChar {l : List Char} {allowed : List Char} {x : Char}
    (h : hasChar x l = true) (hx : hasChar x allowed = false) :
    l.all (fun c => hasChar c allowed) = false := by
  cases hall : l.all (fun c => hasChar c allowed) with
  | false => rfl
  | true => rw [hasChar_false_of_all hall hx] at h; exact absurd h (by simp)

lemma splitOnChar_of_not_has {c : Char} {l : List Char} (h : hasChar c l = false) :
    splitOnChar c l = [l] := by
  induction l with
  | nil => rfl
  | cons x xs ih =>
    rw [hasChar_cons] at h
    unfold splitOnChar
    split
    · next hx => rw [if_pos hx] at h; exact absurd h (by simp)
    · next hx => rw [if_neg hx] at h; rw [ih h]

lemma splitOnChar_pair {c : Char} {a b : List Char}
    (ha : hasChar c a = false) (hb : hasChar c b = false) :
    splitOnChar c (a ++ c :: b) = [a, b] := by
  induction a with
  | nil =>
    show splitOnChar c (c :: b) = [[], b]
    unfold splitOnChar
    rw [if_pos rfl, splitOnChar_of_not_has hb]
  | cons x xs ih =>
    rw [hasChar_cons] at ha
    show splitOnChar c (x :: (xs ++ c :: b)) = [x :: xs, b]
    unfold splitOnChar
    split
    · next hx => rw [if_pos hx] at ha; exact absurd ha (by simp)
    · next hx =>
      rw [if_neg hx] at ha
      rw [ih ha]

lemma splitFirst_of_not_has {c : Char} {l : List Char} (h : hasChar c l = false) :
    splitFirst c l = (l, none) := by
  induction l with
  | nil => rfl
  | cons x xs ih =>
    rw [hasChar_cons] at h
    unfold splitFirst
    split
    · next hx => rw [if_pos hx] at h; exact absurd h (by simp)
    · next hx =>
      rw [if_neg hx] at h
      rw [ih h]

lemma splitFirst_hit {c : Char} {a : List Char} (b : List Char)
    (ha : hasChar c a = false) : splitFirst c (a ++ c :: b) = (a, some b) := by
  induction a with
  | nil =>
    show splitFirst c (c :: b) = ([], some b)
    unfold splitFirst
    rw [if_pos rfl]
  | cons x xs ih =>
    rw [hasChar_cons] at ha
    show splitFirst c (x :: (xs ++ c :: b)) = (x :: xs, some b)
    unfold splitFirst
    split
    · next hx => rw [if_pos hx] at ha; exact absurd ha (by simp)
    · next hx =>
      rw [if_neg hx] at ha
      rw [ih ha]

lemma splitLast_cons (c a : Char) (l : List Char) :
    splitLast c (a :: l) =
      match splitLast c l with
      | some (b, t) => some (a :: b, t)
      | none => if a = c then some ([], l) else none := rfl

lemma splitLast_of_not_has {c : Char} {l : List Char} (h : hasChar c l = false) :
    splitLast c l = none := by
  induction l with
  | nil => rfl
  | cons x xs ih =>
    rw [hasChar_cons] at h
    by_cases hx : x = c
    · rw [if_pos hx] at h; exact absurd h (by simp)
    · rw [if_neg hx] at h
      rw [splitLast_cons, ih h]
      exact if_neg hx

lemma hasChar_of_splitLast_none {c : Char} {l : List Char} (h : splitLast c l = none) :
    hasChar c l = false := by
  induction l with
  | nil => rfl
  | cons x xs ih =>
    rw [splitLast_cons] at h
    cases hs : splitLast c xs with
    | some bt => rw [hs] at h; simp at h
    | none =>
      rw [hasChar_cons]
      by_cases hx : x = c
      · simp [hs, hx] at h
      · rw [if_neg hx]; exact ih hs

lemma splitLast_hit {c : Char} {t : List Char} (a : List Char)
    (ht : hasChar c t = false) : splitLast c (a ++ c :: t) = some (a, t) := by
  induction a with
  | nil =>
    show splitLast c (c :: t) = some ([], t)
    rw [splitLast_cons, splitLast_of_not_has ht]
    exact if_pos rfl
  | cons x xs ih =>
    show splitLast c (x :: (xs ++ c :: t)) = some (x :: xs, t)
    rw [splitLast_cons, ih]

lemma splitLast_append_right_none {c : Char} {x y : List Char}
    (hy : hasChar c y = false) (hx : splitLast c x = none) :
    splitLast c (x ++ y) = none := by
  induction x with
  | nil => exact splitLast_of_not_has hy
  | cons a as ih =>
    rw [splitLast_cons] at hx
    rw [List.cons_append, splitLast_cons]
    cases hs : splitLast c as with
    | some bt => rw [hs] at hx; simp at hx
    | none =>
      rw [hs] at hx
      rw [ih hs]
      by_cases ha : a = c
      · rw [if_pos ha] at hx; simp at hx
      · exact if_neg ha

lemma splitLast_append_right_some {c : Char} {x y b t : List Char}
    (hy : splitLast c y = some (b, t)) :
    splitLast c (x ++ y) = some (x ++ b, t) := by
  induction x with
  | nil => simpa using hy
  | cons a as ih =>
    rw [List.cons_append, splitLast_cons, ih]
    rfl

lemma splitLast_push {c : Char} {x y b t : List Char}
    (hy : hasChar c y = false) (hx : splitLast c x = some (b, t)) :
    splitLast c (x ++ y) = some (b, t ++ y) := by
  induction x generalizing b with
  | nil => simp [splitLast] at hx
  | cons a as ih =>
    rw [splitLast_cons] at hx
    rw [List.cons_append, splitLast_cons]
    cases hs : splitLast c as with
    | some bt =>
      obtain ⟨b0, t0⟩ := bt
      rw [hs] at hx
      simp only [Option.some.injEq, Prod.mk.injEq] at hx
      obtain ⟨hb, ht⟩ := hx
      subst ht
      rw [ih hs]
      simp [hb]
    | none =>
      rw [hs] at hx
      by_cases ha : a = c
      · rw [if_pos ha] at hx
        simp only [Option.some.injEq, Prod.mk.injEq] at hx
        obtain ⟨hb, ht⟩ := hx
        subst ht
        rw [splitLast_append_right_none hy hs, if_pos ha]
        simp [hb]
      · rw [if_neg ha] at hx; simp at hx

lemma splitLast_recompose {c : Char} {l b t : List Char}
    (h : splitLast c l = some (b, t)) : l = b ++ c :: t := by
  induction l generalizing b t with
  | nil => simp [splitLast] at h
  | cons a as ih =>
    rw [splitLast_cons] at h
    cases hs : splitLast c as with
    | some bt =>
      obtain ⟨b0, t0⟩ := bt
      rw [hs] at h
      simp only [Option.some.injEq, Prod.mk.injEq] at h
      obtain ⟨hb, ht⟩ := h
      subst ht
      rw [← hb, List.cons_append]
      rw [← ih hs]
    | none =>
      rw [hs] at h
      by_cases ha : a = c
      · rw [if_pos ha] at h
        simp only [Option.some.injEq, Prod.mk.injEq] at h
        obtain ⟨hb, ht⟩ := h
        subst ht
        rw [← hb, ha]
        rfl
      · rw [if_neg ha] at h; simp at h

/-! ## Supporting lemmas about the `name` package model -/

lemma checkElement_parts {e a : List Char} {lo hi : Nat} (h : checkElement e a lo hi = true) :
    lo ≤ e.length ∧ e.length ≤ hi ∧ e.all (fun c => hasChar c a) = true := by
  unfold checkElement at h
  rw [Bool.and_eq_true, Bool.and_eq_true] at h
  exact ⟨of_decide_eq_true h.1.1, of_decide_eq_true h.1.2, h.2⟩

lemma checkElement_of {e a : List Char} {lo hi : Nat} (h1 : lo ≤ e.length)
    (h2 : e.length ≤ hi) (h3 : e.all (fun c => hasChar c a) = true) :
    checkElement e a lo hi = true := by
  unfold checkElement
  rw [Bool.and_eq_true, Bool.and_eq_true]
  exact ⟨⟨decide_eq_true h1, decide_eq_true h2⟩, h3⟩

lemma checkElement_false_of_has {e a : List Char} {lo hi : Nat} {x : Char}
    (h : hasChar x e = true) (hx : hasChar x a = false) :
    checkElement e a lo hi = false := by
  unfold checkElement
  rw [all_false_of_hasChar h hx]
  simp

lemma checkRegistry_no_slash {g : List Char} (h : checkRegistry g = true) :
    hasChar '/' g = false :=
  hasChar_false_of_all h (by decide)

lemma checkRegistry_no_at {g : List Char} (h : checkRegistry g = true) :
    hasChar '@' g = false :=
  hasChar_false_of_all h (by decide)

lemma checkRepository_no_colon {l : List Char} (h : checkRepository l = true) :
    hasChar ':' l = false :=
  hasChar_false_of_all (checkElement_parts h).2.2 (by decide)

lemma checkRepository_no_at {l : List Char} (h : checkRepository l = true) :
    hasChar '@' l = false :=
  hasChar_false_of_all (checkElement_parts h).2.2 (by decide)

lemma checkRepository_ne_nil {l : List Char} (h : checkRepository l = true) : l ≠ [] := by
  have := (checkElement_parts h).1
  intro he
  rw [he] at this
  simp at this

lemma checkTag_no_colon {l : List Char} (h : checkTag l = true) : hasChar ':' l = false :=
  hasChar_false_of_all (checkElement_parts h).2.2 (by decide)

lemma checkTag_no_slash {l : List Char} (h : checkTag l = true) : hasChar '/' l = false :=
  hasChar_false_of_all (checkElement_parts h).2.2 (by decide)

lemma checkTag_no_at {l : List Char} (h : checkTag l = true) : hasChar '@' l = false :=
  hasChar_false_of_all (checkElement_parts h).2.2 (by decide)

lemma checkTag_ne_nil {l : List Char} (h : checkTag l = true) : l ≠ [] := by
  have := (checkElement_parts h).1
  intro he
  rw [he] at this
  simp at this

lemma checkDigest_no_at {l : List Char} (h : checkDigest l = true) : hasChar '@' l = false :=
  hasChar_false_of_all (checkElement_parts h).2.2 (by decide)

lemma checkDigest_no_slash {l : List Char} (h : checkDigest l = true) : hasChar '/' l = false :=
  hasChar_false_of_all (checkElement_parts h).2.2 (by decide)

lemma NewRegistry_empty (opt : NameOptions) :
    NewRegistry [] opt = Except.ok ⟨opt.defaultRegistry⟩ := rfl

lemma NewRegistry_explicit {g : List Char} (opt : NameOptions)
    (h : checkRegistry g = true) (hne : g ≠ []) : NewRegistry g opt = Except.ok ⟨g⟩ := by
  simp [NewRegistry, h, hne]

lemma NewRepository_whole {nm : List Char} (opt : NameOptions) (hne : nm ≠ [])
    (hck : checkRepository nm = true) (hns : noRegistrySplit nm = true) :
    NewRepository nm opt = Except.ok ⟨⟨opt.defaultRegistry⟩, nm⟩ := by
  unfold noRegistrySplit at hns
  simp only [NewRepository, if_neg hne]
  cases hs : (splitFirst '/' nm).2 with
  | none =>
    simp [hck, NewRegistry_empty]
  | some rest =>
    rw [hs] at hns
    simp only at hns
    rw [Bool.not_eq_true'] at hns
    simp [hns, hck, NewRegistry_empty]

lemma NewRepository_registry {g repo : List Char} (opt : NameOptions)
    (hgslash : hasChar '/' g = false) (hdot : (hasChar '.' g || hasChar ':' g) = true)
    (hreg : checkRegistry g = true) (hgne : g ≠ []) (hck : checkRepository repo = true) :
    NewRepository (g ++ '/' :: repo) opt = Except.ok ⟨⟨g⟩, repo⟩ := by
  have hne : g ++ '/' :: repo ≠ [] := by cases g <;> simp
  have hsf := splitFirst_hit repo hgslash
  simp only [NewRepository, if_neg hne, hsf]
  simp [hdot, hck, NewRegistry_explicit opt hreg hgne]

lemma NewRepository_bad {g S : List Char} (opt : NameOptions)
    (hgslash : hasChar '/' g = false) (hdot : (hasChar '.' g || hasChar ':' g) = true)
    (hat : hasChar '@' S = true) :
    NewRepository (g ++ '/' :: S) opt =
      Except.error (GoError.badName (str "repositories can only contain certain characters")) := by
  have hne : g ++ '/' :: S ≠ [] := by cases g <;> simp
  have hsf := splitFirst_hit S hgslash
  have hbad : checkRepository S = false := checkElement_false_of_has hat (by decide)
  simp only [NewRepository, if_neg hne, hsf]
  simp [hdot, hbad]

lemma newTagFinish_empty (base : List Char) (opt : NameOptions) :
    newTagFinish (base, []) opt =
      match NewRepository base opt with
      | Except.error e => Except.error e
      | Except.ok repo => Except.ok ⟨repo, opt.defaultTag⟩ := by
  simp [newTagFinish]

lemma newTagFinish_tag {t : List Char} (base : List Char) (opt : NameOptions)
    (htag : checkTag t = true) (hne : t ≠ []) :
    newTagFinish (base, t) opt =
      match NewRepository base opt with
      | Except.error e => Except.error e
      | Except.ok repo => Except.ok ⟨repo, t⟩ := by
  simp [newTagFinish, htag, hne]

lemma NewTag_no_strip {nm : List Char} (opt : NameOptions)
    (hsl : ∀ b t, splitLast ':' nm = some (b, t) → hasChar '/' t = true) :
    NewTag nm opt =
      match NewRepository nm opt with
      | Except.error e => Except.error e
      | Except.ok repo => Except.ok ⟨repo, opt.defaultTag⟩ := by
  simp only [NewTag]
  cases hs : splitLast ':' nm with
  | none => exact newTagFinish_empty nm opt
  | some bt0 =>
    obtain ⟨b, t⟩ := bt0
    simp only []
    rw [hsl b t hs]
    simp only [if_pos rfl]
    exact newTagFinish_empty nm opt

lemma NewTag_strip {a t : List Char} (opt : NameOptions)
    (hcol : hasChar ':' t = false) (hslash : hasChar '/' t = false)
    (htag : checkTag t = true) (hne : t ≠ []) :
    NewTag (a ++ ':' :: t) opt =
      match NewRepository a opt with
      | Except.error e => Except.error e
      | Except.ok repo => Except.ok ⟨repo, t⟩ := by
  simp only [NewTag, splitLast_hit a hcol, hslash]
  rw [if_neg (by simp)]
  exact newTagFinish_tag a opt htag hne

lemma NewDigest_no_at {nm : List Char} (opt : NameOptions) (h : hasChar '@' nm = false) :
    NewDigest nm opt =
      Except.error (GoError.badName (str "a digest must contain exactly one @ separator")) := by
  simp only [NewDigest, splitOnChar_of_not_has h]

lemma RepositoryStr_of_not_implicit {rep : Repository}
    (h : hasImplicitNamespace rep.repository rep.registry = false) :
    RepositoryStr rep = rep.repository := by
  unfold RepositoryStr
  rw [h]
  simp

lemma RepositoryName_of_ne {rep : Repository} (h : rep.registry.registry ≠ []) :
    RepositoryName rep = rep.registry.registry ++ '/' :: RepositoryStr rep := by
  unfold RepositoryName RegistryName
  rw [if_neg h]

lemma noImplicit_repositoryStr (rep : Repository) :
    hasImplicitNamespace (RepositoryStr rep) rep.registry = false := by
  unfold RepositoryStr
  cases h : hasImplicitNamespace rep.repository rep.registry with
  | false => simpa using h
  | true =>
    unfold hasImplicitNamespace
    simp [hasChar_append, hasChar_cons]

lemma RepositoryStr_all {rep : Repository} (h : checkRepository rep.repository = true) :
    (RepositoryStr rep).all (fun c => hasChar c repositoryChars) = true
      ∧ 2 ≤ (RepositoryStr rep).length := by
  obtain ⟨h1, _, h3⟩ := checkElement_parts h
  unfold RepositoryStr
  cases hi : hasImplicitNamespace rep.repository rep.registry with
  | false =>
    constructor
    · rw [if_neg (by simp)]
      exact h3
    · rw [if_neg (by simp)]
      exact h1
  | true =>
    constructor
    · rw [if_pos rfl]
      rw [List.all_append, Bool.and_eq_true]
      refine ⟨by decide, ?_⟩
      rw [List.all_cons, Bool.and_eq_true]
      exact ⟨by decide, h3⟩
    · rw [if_pos rfl, List.length_append]
      simp [defaultNamespace, str]
      omega

lemma hasChar_at_slashcons {ρ dg : List Char} (hρat : hasChar '@' ρ = false) :
    hasChar '@' (ρ ++ '@' :: dg) = true := by
  rw [hasChar_append, hasChar_cons]
  simp [hρat]

lemma append_cons_assoc (g ρ : List Char) (c : Char) (dg : List Char) :
    (g ++ '/' :: ρ) ++ c :: dg = g ++ '/' :: (ρ ++ c :: dg) := by
  simp

lemma splitLast_shape {g ρ : List Char} (hρcol : hasChar ':' ρ = false) :
    ∀ b t, splitLast ':' (g ++ '/' :: ρ) = some (b, t) → hasChar '/' t = true := by
  intro b t hbt
  have hyc : hasChar ':' ('/' :: ρ) = false := by
    rw [hasChar_cons]
    simp [hρcol]
  cases hg : splitLast ':' g with
  | none =>
    rw [splitLast_append_right_none hyc hg] at hbt
    simp at hbt
  | some bt0 =>
    obtain ⟨b0, t0⟩ := bt0
    rw [splitLast_push hyc hg] at hbt
    simp only [Option.some.injEq, Prod.mk.injEq] at hbt
    rw [← hbt.2, hasChar_append, hasChar_cons]
    simp

/-- Evaluation of `NewDigest` on a well-formed digest name with an explicit
registry: the digest is accepted and the base re-parses to the same repository. -/
lemma NewDigest_ok {g ρ dg : List Char} (opt : NameOptions)
    (hgslash : hasChar '/' g = false) (hgat : hasChar '@' g = false)
    (hdot : (hasChar '.' g || hasChar ':' g) = true) (hreg : checkRegistry g = true)
    (hgne : g ≠ []) (hck : checkRepository ρ = true) (hρat : hasChar '@' ρ = false)
    (hρcol : hasChar ':' ρ = false) (himp : hasImplicitNamespace ρ ⟨g⟩ = false)
    (hdg : checkDigest dg = true) (hdgat : hasChar '@' dg = false) :
    NewDigest ((g ++ '/' :: ρ) ++ '@' :: dg) opt = Except.ok ⟨⟨⟨g⟩, ρ⟩, dg⟩ := by
  have hAat : hasChar '@' (g ++ '/' :: ρ) = false := by
    rw [hasChar_append, hasChar_cons]
    simp [hgat, hρat]
  have hsp := splitOnChar_pair hAat hdgat
  have hnt := @NewTag_no_strip (g ++ '/' :: ρ) opt (splitLast_shape hρcol)
  have hnr := @NewRepository_registry g ρ opt hgslash hdot hreg hgne hck
  have hrepn : RepositoryName ⟨⟨g⟩, ρ⟩ = g ++ '/' :: ρ := by
    rw [RepositoryName_of_ne hgne, RepositoryStr_of_not_implicit himp]
  simp only [NewDigest, hsp, hdg, hnt, hnr, hrepn]
  simp

/-- `NewTag` rejects every digest-form name built from an explicit registry,
repository path and digest: whichever way the tag split falls, the `@` lands in
the repository component and `NewRepository` (or the tag check) fails. -/
lemma NewTag_fail_digest {g ρ dg : List Char} (opt : NameOptions)
    (hgslash : hasChar '/' g = false) (hdot : (hasChar '.' g || hasChar ':' g) = true)
    (hρcol : hasChar ':' ρ = false) (hρat : hasChar '@' ρ = false)
    (hdgslash : hasChar '/' dg = false) :
    ∃ e, NewTag ((g ++ '/' :: ρ) ++ '@' :: dg) opt = Except.error e := by
  cases hdgc : splitLast ':' dg with
  | some d12 =>
    obtain ⟨d1, d2⟩ := d12
    have h1 : splitLast ':' ('@' :: dg) = some ('@' :: d1, d2) := by
      rw [splitLast_cons, hdgc]
    have h2 : splitLast ':' ((g ++ '/' :: ρ) ++ '@' :: dg)
        = some ((g ++ '/' :: ρ) ++ '@' :: d1, d2) := splitLast_append_right_some h1
    have hdg2 : hasChar '/' d2 = false := by
      have hrec := splitLast_recompose hdgc
      rw [hrec, hasChar_append, hasChar_cons] at hdgslash
      rw [Bool.or_eq_false_iff] at hdgslash
      have := hdgslash.2
      simpa using this
    have hbad := NewRepository_bad (S := ρ ++ '@' :: d1) opt hgslash hdot
      (hasChar_at_slashcons hρat)
    by_cases hcond : d2 ≠ [] ∧ checkTag d2 = false
    · refine ⟨GoError.badName (str "tags can only contain certain characters"), ?_⟩
      simp only [NewTag, h2, hdg2]
      simp [newTagFinish, hcond]
    · refine ⟨GoError.badName (str "repositories can only contain certain characters"), ?_⟩
      simp only [NewTag, h2, hdg2]
      simp [newTagFinish, hcond, hbad]
  | none =>
    have hdgc' : hasChar ':' dg = false := hasChar_of_splitLast_none hdgc
    have hyc : hasChar ':' ('@' :: dg) = false := by
      rw [hasChar_cons]
      simp [hdgc']
    have hbad := NewRepository_bad (S := ρ ++ '@' :: dg) opt hgslash hdot
      (hasChar_at_slashcons hρat)
    rw [← append_cons_assoc] at hbad
    have hwhole : ∀ hsl, ∃ e, NewTag ((g ++ '/' :: ρ) ++ '@' :: dg) opt = Except.error e :=
      fun hsl => ⟨_, by rw [NewTag_no_strip opt hsl, hbad]⟩
    cases hgc : splitLast ':' (g ++ '/' :: ρ) with
    | none =>
      refine hwhole ?_
      intro b t hbt
      rw [splitLast_append_right_none hyc hgc] at hbt
      simp at hbt
    | some bt0 =>
      obtain ⟨b0, t0⟩ := bt0
      have ht0 : hasChar '/' t0 = true := splitLast_shape hρcol b0 t0 hgc
      refine hwhole ?_
      intro b t hbt
      rw [splitLast_push hyc hgc] at hbt
      simp only [Option.some.injEq, Prod.mk.injEq] at hbt
      rw [← hbt.2, hasChar_append, ht0]
      rfl

/-- Evaluation of `ParseReference` on a bare repository path (no tag, no
registry split): a tag-form reference with the default registry of the options
and tag `latest`. -/
lemma ParseReference_plain {l R : List Char} (hne : l ≠ [])
    (hck : checkRepository l = true) (hns : noRegistrySplit l = true) :
    ParseReference l ⟨R, str "latest"⟩ =
      Except.ok (Reference.tag ⟨⟨⟨R⟩, l⟩, str "latest"⟩) := by
  have hcol := checkRepository_no_colon hck
  have hnt := @NewTag_no_strip l ⟨R, str "latest"⟩ (fun b t hbt => by
    rw [splitLast_of_not_has hcol] at hbt
    simp at hbt)
  unfold ParseReference
  rw [hnt, NewRepository_whole ⟨R, str "latest"⟩ hne hck hns]

lemma bool_true_of_not_false {b : Bool} (h : ¬(b = false)) : b = true := by
  cases b
  · exact absurd rfl h
  · rfl

lemma RegWF_default : RegWF DefaultRegistry := ⟨by decide, by decide, by decide⟩

lemma NewRegistry_inv {nm : List Char} {opt : NameOptions} {reg : Registry}
    (h : NewRegistry nm opt = Except.ok reg) :
    (nm = [] ∧ reg = ⟨opt.defaultRegistry⟩)
      ∨ (reg = ⟨nm⟩ ∧ checkRegistry nm = true ∧ nm ≠ []) := by
  unfold NewRegistry at h
  by_cases hc : checkRegistry nm = false
  · rw [if_pos hc] at h; simp at h
  · rw [if_neg hc] at h
    by_cases hn : nm = []
    · rw [if_pos hn] at h
      exact Or.inl ⟨hn, (Except.ok.inj h).symm⟩
    · rw [if_neg hn] at h
      exact Or.inr ⟨(Except.ok.inj h).symm, bool_true_of_not_false hc, hn⟩

lemma NewRepository_inv {nm : List Char} {rep : Repository}
    (h : NewRepository nm defaultOpts = Except.ok rep) :
    checkRepository rep.repository = true ∧ RegWF rep.registry.registry := by
  simp only [NewRepository] at h
  by_cases hn : nm = []
  · rw [if_pos hn] at h; simp at h
  · rw [if_neg hn] at h
    have finish : ∀ {cand repo : List Char},
        (if checkRepository repo = false then
            Except.error (GoError.badName (str "repositories can only contain certain characters"))
          else
            match NewRegistry cand defaultOpts with
            | Except.error e => Except.error e
            | Except.ok reg => Except.ok (⟨reg, repo⟩ : Repository)) = Except.ok rep →
        (cand ≠ [] → (hasChar '.' cand || hasChar ':' cand) = true) →
        checkRepository rep.repository = true ∧ RegWF rep.registry.registry := by
      intro cand repo hh hdot
      by_cases hc : checkRepository repo = false
      · rw [if_pos hc] at hh; simp at hh
      · rw [if_neg hc] at hh
        cases hreg : NewRegistry cand defaultOpts with
        | error e => rw [hreg] at hh; simp at hh
        | ok reg =>
          rw [hreg] at hh
          simp only at hh
          have hrep : rep = ⟨reg, repo⟩ := (Except.ok.inj hh).symm
          subst hrep
          refine ⟨bool_true_of_not_false hc, ?_⟩
          rcases NewRegistry_inv hreg with ⟨_, hr⟩ | ⟨hr, hck, hne⟩
          · rw [hr]; exact RegWF_default
          · rw [hr]; exact ⟨hne, hck, hdot hne⟩
    cases hs : (splitFirst '/' nm).2 with
    | none =>
      rw [hs] at h
      simp only at h
      exact finish h (fun hne => absurd rfl hne)
    | some rest =>
      rw [hs] at h
      simp only at h
      by_cases hd : (hasChar '.' (splitFirst '/' nm).1 || hasChar ':' (splitFirst '/' nm).1) = true
      · rw [hd] at h
        simp only [if_pos rfl] at h
        exact finish h (fun _ => hd)
      · have hdf : (hasChar '.' (splitFirst '/' nm).1 || hasChar ':' (splitFirst '/' nm).1)
            = false := by
          rw [← Bool.not_eq_true]
          exact hd
        rw [hdf] at h
        simp only [Bool.false_eq_true, if_false] at h
        exact finish h (fun hne => absurd rfl hne)

lemma newTagFinish_inv {bt : List Char × List Char} {t : Tag}
    (h : newTagFinish bt defaultOpts = Except.ok t) :
    checkTag t.tag = true ∧ NewRepository bt.1 defaultOpts = Except.ok t.repository := by
  unfold newTagFinish at h
  by_cases hc : bt.2 ≠ [] ∧ checkTag bt.2 = false
  · rw [if_pos hc] at h; simp at h
  · rw [if_neg hc] at h
    cases hnr : NewRepository bt.1 defaultOpts with
    | error e => rw [hnr] at h; simp at h
    | ok repo =>
      rw [hnr] at h
      simp only at h
      have ht : t = ⟨repo, if bt.2 = [] then defaultOpts.defaultTag else bt.2⟩ :=
        (Except.ok.inj h).symm
      subst ht
      refine ⟨?_, rfl⟩
      show checkTag (if bt.2 = [] then defaultOpts.defaultTag else bt.2) = true
      by_cases hbt : bt.2 = []
      · rw [if_pos hbt]; decide
      · rw [if_neg hbt]
        rcases not_and_or.mp hc with h1 | h2
        · exact absurd hbt (by simpa using h1)
        · exact bool_true_of_not_false h2

lemma NewTag_inv {nm : List Char} {t : Tag} (h : NewTag nm defaultOpts = Except.ok t) :
    checkTag t.tag = true ∧ checkRepository t.repository.repository = true
      ∧ RegWF t.repository.registry.registry := by
  unfold NewTag at h
  obtain ⟨htag, hrep⟩ := newTagFinish_inv h
  obtain ⟨h1, h2⟩ := NewRepository_inv hrep
  exact ⟨htag, h1, h2⟩

lemma NewDigest_inv {nm : List Char} {d : Digest}
    (h : NewDigest nm defaultOpts = Except.ok d) :
    checkDigest d.digest = true ∧ checkRepository d.repository.repository = true
      ∧ RegWF d.repository.registry.registry := by
  simp only [NewDigest] at h
  cases hsp : splitOnChar '@' nm with
  | nil => rw [hsp] at h; simp at h
  | cons base rest =>
    cases rest with
    | nil => rw [hsp] at h; simp at h
    | cons dg rest2 =>
      cases rest2 with
      | cons z zs => rw [hsp] at h; simp at h
      | nil =>
        rw [hsp] at h
        simp only at h
        by_cases hc : checkDigest dg = false
        · rw [if_pos hc] at h; simp at h
        · rw [if_neg hc] at h
          cases hnr : NewRepository
              (match NewTag base defaultOpts with
               | Except.ok t => RepositoryName t.repository
               | Except.error _ => base) defaultOpts with
          | error e => rw [hnr] at h; simp at h
          | ok repo =>
            rw [hnr] at h
            simp only at h
            have hd : d = ⟨repo, dg⟩ := (Except.ok.inj h).symm
            subst hd
            obtain ⟨h1, h2⟩ := NewRepository_inv hnr
            exact ⟨bool_true_of_not_false hc, h1, h2⟩

lemma ParseReference_inv {s : List Char} {r : Reference}
    (h : ParseReference s defaultOpts = Except.ok r) : RefWF r := by
  unfold ParseReference at h
  cases hnt : NewTag s defaultOpts with
  | ok t =>
    rw [hnt] at h
    simp only at h
    have hr : r = Reference.tag t := (Except.ok.inj h).symm
    subst hr
    obtain ⟨h1, h2, h3⟩ := NewTag_inv hnt
    exact ⟨h3, h2, h1⟩
  | error e =>
    rw [hnt] at h
    simp only at h
    cases hnd : NewDigest s defaultOpts with
    | ok d =>
      rw [hnd] at h
      simp only at h
      have hr : r = Reference.digest d := (Except.ok.inj h).symm
      subst hr
      obtain ⟨h1, h2, h3⟩ := NewDigest_inv hnd
      exact ⟨h3, h2, h1⟩
    | error e2 => rw [hnd] at h; simp at h

/-- Core evaluation of `RelocateReference` on a parsable reference whose
repository path survives re-parsing (no `.`-bearing first component and within
the repository length bound): the result keeps the repository path and the
identifier, swaps the registry, and preserves the identifier kind. -/
lemma relocateOk {s reg : List Char} {r : Reference}
    (hparse : ParseReference s defaultOpts = Except.ok r)
    (h1 : noRegistrySplit (refRepoStr r) = true)
    (h2 : (refRepoStr r).length ≤ 255) :
    RelocateReference s reg =
      Except.ok (mkRef reg (refRepoStr r) (Identifier r) (isDigestForm r)) := by
  obtain ⟨⟨hgne, hgreg, hgdot⟩, hrepo, hid⟩ := ParseReference_inv hparse
  rw [show refRepoStr r = RepositoryStr (Context r) from rfl] at h1 h2 ⊢
  obtain ⟨hall, hlen2⟩ := RepositoryStr_all hrepo
  have hckρ : checkRepository (RepositoryStr (Context r)) = true := checkElement_of hlen2 h2 hall
  have hρne : RepositoryStr (Context r) ≠ [] := by
    intro he
    rw [he] at hlen2
    simp at hlen2
  have hρcol : hasChar ':' (RepositoryStr (Context r)) = false :=
    hasChar_false_of_all hall (by decide)
  have hρat : hasChar '@' (RepositoryStr (Context r)) = false :=
    hasChar_false_of_all hall (by decide)
  have hstep2 := ParseReference_plain (R := reg) hρne hckρ h1
  unfold RelocateReference
  rw [hparse]
  simp only []
  rw [hstep2]
  simp only []
  cases r with
  | tag t =>
    simp only [Context] at hgne hgreg hρat
    simp only [idOk] at hid
    have hat : hasChar '@' (Name (Reference.tag t)) = false := by
      show hasChar '@' (RepositoryName t.repository ++ ':' :: t.tag) = false
      rw [RepositoryName_of_ne hgne, hasChar_append, hasChar_append, hasChar_cons,
        hasChar_cons, checkRegistry_no_at hgreg, hρat, checkTag_no_at hid]
      rfl
    rw [NewDigest_no_at defaultOpts hat]
    rfl
  | digest d =>
    simp only [Context] at hgne hgreg hgdot hρat hρcol hckρ
    simp only [idOk] at hid
    have himp : hasImplicitNamespace (RepositoryStr d.repository)
        ⟨d.repository.registry.registry⟩ = false := noImplicit_repositoryStr d.repository
    have hnd := @NewDigest_ok d.repository.registry.registry (RepositoryStr d.repository)
      d.digest defaultOpts
      (checkRegistry_no_slash hgreg) (checkRegistry_no_at hgreg) hgdot hgreg hgne
      hckρ hρat hρcol himp hid (checkDigest_no_at hid)
    have hname : Name (Reference.digest d)
        = (d.repository.registry.registry ++ '/' :: RepositoryStr d.repository)
            ++ '@' :: d.digest := by
      show RepositoryName d.repository ++ '@' :: d.digest = _
      rw [RepositoryName_of_ne hgne]
    rw [hname, hnd]
    rfl

lemma mkRef_registry (g ρ id : List Char) (b : Bool) : refRegistry (mkRef g ρ id b) = g := by
  cases b <;> rfl

lemma mkRef_repoStr {g ρ : List Char} (id : List Char) (b : Bool)
    (h : hasImplicitNamespace ρ ⟨g⟩ = false) : refRepoStr (mkRef g ρ id b) = ρ := by
  cases b <;> exact RepositoryStr_of_not_implicit h

lemma mkRef_kind (g ρ id : List Char) (b : Bool) : isDigestForm (mkRef g ρ id b) = b := by
  cases b <;> rfl

lemma mkRef_id (g ρ id : List Char) (b : Bool) : Identifier (mkRef g ρ id b) = id := by
  cases b <;> rfl

/-! ## C3: `RelocateReference` preserves repository path and identifier kind -/

/-- C3 (amended).  For every reference string that parses and every registry:
provided the repository path's first `/`-component contains no `.` (so
re-parsing does not mistake it for a registry), the path is within the 255-rune
repository bound, and the relocation does not target Docker Hub with a
slash-free path (which would acquire the implicit `library/` namespace),
`RelocateReference` returns a reference whose registry is exactly the given
registry, whose repository path equals the input's repository path, and whose
identifier kind and value are preserved: digest-form stays digest-form with the
same digest, tag-form stays tag-form with the same tag. -/
theorem relocate_preserves {s reg : List Char} {r : Reference}
    (hparse : ParseReference s defaultOpts = Except.ok r)
    (h1 : noRegistrySplit (refRepoStr r) = true)
    (h2 : (refRepoStr r).length ≤ 255)
    (h3 : hasImplicitNamespace (refRepoStr r) ⟨reg⟩ = false) :
    ∃ out, RelocateReference s reg = Except.ok out
      ∧ refRegistry out = reg
      ∧ refRepoStr out = refRepoStr r
      ∧ isDigestForm out = isDigestForm r
      ∧ Identifier out = Identifier r := by
  refine ⟨mkRef reg (refRepoStr r) (Identifier r) (isDigestForm r),
    relocateOk hparse h1 h2, mkRef_registry _ _ _ _, mkRef_repoStr _ _ h3,
    mkRef_kind _ _ _ _, mkRef_id _ _ _ _⟩

/-- Witness for C3 at a concrete input: relocating `reg.io/repo:v1` to
`target.io` yields registry `target.io`, repository path `repo`, tag form, tag
`v1`. -/
theorem relocate_preserves_witness :
    ∃ out, RelocateReference (str "reg.io/repo:v1") (str "target.io") = Except.ok out
      ∧ refRegistry out = str "target.io"
      ∧ refRepoStr out = str "repo"
      ∧ isDigestForm out = false
      ∧ Identifier out = str "v1" := by
  obtain ⟨out, ha, hb, hc, hd, he⟩ :=
    @relocate_preserves (str "reg.io/repo:v1") (str "target.io")
      (Reference.tag ⟨⟨⟨str "reg.io"⟩, str "repo"⟩, str "v1"⟩)
      (by decide) (by decide) (by decide) (by decide)
  exact ⟨out, ha, hb, hc.trans (by decide), hd.trans (by decide), he.trans (by decide)⟩

/-- Counterexample to C3 as stated: the parsable reference
`reg.io/sub.dir/img:v1` has repository path `sub.dir/img`, but relocating it to
`target.io` re-parses that path and mistakes `sub.dir` for a registry — the
result's registry is `sub.dir`, not the given registry, and its repository path
is `img`, not the input's repository path. -/
theorem relocate_counterexample :
    ParseReference (str "reg.io/sub.dir/img:v1") defaultOpts
        = Except.ok (Reference.tag ⟨⟨⟨str "reg.io"⟩, str "sub.dir/img"⟩, str "v1"⟩)
    ∧ RelocateReference (str "reg.io/sub.dir/img:v1") (str "target.io")
        = Except.ok (Reference.tag ⟨⟨⟨str "sub.dir"⟩, str "img"⟩, str "v1"⟩)
    ∧ refRegistry (Reference.tag ⟨⟨⟨str "sub.dir"⟩, str "img"⟩, str "v1"⟩) ≠ str "target.io"
    ∧ refRepoStr (Reference.tag ⟨⟨⟨str "sub.dir"⟩, str "img"⟩, str "v1"⟩)
        ≠ refRepoStr (Reference.tag ⟨⟨⟨str "reg.io"⟩, str "sub.dir/img"⟩, str "v1"⟩) := by
  refine ⟨by decide, by decide, by decide, by decide⟩

/-! ## C4: round-trip relocation -/

/-- A reference built from well-formed components re-parses to itself (with the
library defaults): the full name round-trips through `ParseReference`. -/
lemma parse_mkRef {g ρ id : List Char} {isDg : Bool}
    (hgslash : hasChar '/' g = false) (hgat : hasChar '@' g = false)
    (hgdot : (hasChar '.' g || hasChar ':' g) = true) (hgreg : checkRegistry g = true)
    (hck : checkRepository ρ = true) (himp : hasImplicitNamespace ρ ⟨g⟩ = false)
    (hidw : if isDg then checkDigest id = true else checkTag id = true) :
    ParseReference (Name (mkRef g ρ id isDg)) defaultOpts = Except.ok (mkRef g ρ id isDg) := by
  have hgne : g ≠ [] := by
    intro he
    rw [he] at hgdot
    simp [hasChar] at hgdot
  have hρcol := checkRepository_no_colon hck
  have hρat := checkRepository_no_at hck
  have hname0 : RepositoryName ⟨⟨g⟩, ρ⟩ = g ++ '/' :: ρ := by
    rw [RepositoryName_of_ne hgne, RepositoryStr_of_not_implicit himp]
  cases isDg with
  | false =>
    simp only [Bool.false_eq_true, if_false] at hidw
    have hname : Name (mkRef g ρ id false) = (g ++ '/' :: ρ) ++ ':' :: id := by
      show RepositoryName ⟨⟨g⟩, ρ⟩ ++ ':' :: id = _
      rw [hname0]
    unfold ParseReference
    rw [hname, NewTag_strip defaultOpts (checkTag_no_colon hidw) (checkTag_no_slash hidw)
      hidw (checkTag_ne_nil hidw)]
    rw [NewRepository_registry defaultOpts hgslash hgdot hgreg hgne hck]
    rfl
  | true =>
    simp only [eq_self_iff_true, if_true] at hidw
    have hname : Name (mkRef g ρ id true) = (g ++ '/' :: ρ) ++ '@' :: id := by
      show RepositoryName ⟨⟨g⟩, ρ⟩ ++ '@' :: id = _
      rw [hname0]
    unfold ParseReference
    rw [hname]
    obtain ⟨e, he⟩ := NewTag_fail_digest defaultOpts hgslash hgdot hρcol hρat
      (checkDigest_no_slash hidw)
    rw [he]
    simp only []
    rw [NewDigest_ok defaultOpts hgslash hgat hgdot hgreg hgne hck hρat hρcol himp hidw
      (checkDigest_no_at hidw)]
    rfl

/-- C4 (amended).  Relocating a parsable reference to `R1` and then relocating
the result's full name to `R2` yields a reference with registry `R2` and the
same repository path, identifier kind and identifier value as the original —
provided the original's repository path survives re-parsing (first
`/`-component without `.`, length within the repository bound), the
intermediate registry `R1` is itself re-parsable as a registry (non-empty,
no `/` or `@`, containing a `.` or `:`, passing the registry check), and
neither hop targets Docker Hub with a slash-free path. -/
theorem relocate_roundtrip {s R1 R2 : List Char} {r : Reference}
    (hparse : ParseReference s defaultOpts = Except.ok r)
    (h1 : noRegistrySplit (refRepoStr r) = true)
    (h2 : (refRepoStr r).length ≤ 255)
    (hR1slash : hasChar '/' R1 = false) (hR1at : hasChar '@' R1 = false)
    (hR1dot : (hasChar '.' R1 || hasChar ':' R1) = true) (hR1reg : checkRegistry R1 = true)
    (hR1imp : hasImplicitNamespace (refRepoStr r) ⟨R1⟩ = false)
    (hR2imp : hasImplicitNamespace (refRepoStr r) ⟨R2⟩ = false) :
    ∃ out, relocTwice s R1 R2 = Except.ok out
      ∧ refRegistry out = R2
      ∧ refRepoStr out = refRepoStr r
      ∧ isDigestForm out = isDigestForm r
      ∧ Identifier out = Identifier r := by
  obtain ⟨_, hrepo, hid⟩ := ParseReference_inv hparse
  obtain ⟨hall, hlen2⟩ := RepositoryStr_all hrepo
  have hckρ : checkRepository (refRepoStr r) = true := checkElement_of hlen2 h2 hall
  have hop1 := @relocateOk s R1 r hparse h1 h2
  have hidw : if isDigestForm r then checkDigest (Identifier r) = true
      else checkTag (Identifier r) = true := by
    cases r with
    | tag t => simpa [isDigestForm, Identifier, idOk] using hid
    | digest d => simpa [isDigestForm, Identifier, idOk] using hid
  have hp2 := @parse_mkRef R1 (refRepoStr r) (Identifier r) (isDigestForm r)
    hR1slash hR1at hR1dot hR1reg hckρ hR1imp hidw
  have hrs : refRepoStr (mkRef R1 (refRepoStr r) (Identifier r) (isDigestForm r))
      = refRepoStr r := mkRef_repoStr _ _ hR1imp
  have hop2 := @relocateOk
    (Name (mkRef R1 (refRepoStr r) (Identifier r) (isDigestForm r))) R2
    (mkRef R1 (refRepoStr r) (Identifier r) (isDigestForm r))
    hp2 (by rw [hrs]; exact h1) (by rw [hrs]; exact h2)
  unfold relocTwice
  rw [hop1]
  simp only []
  rw [hop2]
  refine ⟨_, rfl, mkRef_registry _ _ _ _, ?_, ?_, ?_⟩
  · rw [mkRef_repoStr _ _ (by rw [hrs]; exact hR2imp), hrs]
  · rw [mkRef_kind, mkRef_kind]
  · rw [mkRef_id, mkRef_id]

/-- Witness for C4 at a concrete input: `reg.io/repo:v1` relocated to `r1.io`
and then to `r2.io` keeps repository path `repo`, tag form and tag `v1`, with
final registry `r2.io`. -/
theorem relocate_roundtrip_witness :
    ∃ out, relocTwice (str "reg.io/repo:v1") (str "r1.io") (str "r2.io") = Except.ok out
      ∧ refRegistry out = str "r2.io"
      ∧ refRepoStr out = str "repo"
      ∧ isDigestForm out = false
      ∧ Identifier out = str "v1" := by
  obtain ⟨out, ha, hb, hc, hd, he⟩ :=
    @relocate_roundtrip (str "reg.io/repo:v1") (str "r1.io") (str "r2.io")
      (Reference.tag ⟨⟨⟨str "reg.io"⟩, str "repo"⟩, str "v1"⟩)
      (by decide) (by decide) (by decide) (by decide) (by decide) (by decide) (by decide)
      (by decide) (by decide)
  exact ⟨out, ha, hb, hc.trans (by decide), hd.trans (by decide), he.trans (by decide)⟩

/-- Counterexample to C4 as stated: `myrepo/img:v1` has repository path
`myrepo/img`; relocated to the dot-free registry `myregistry` and then to
`target.io`, the intermediate name `myregistry/myrepo/img:v1` re-parses with
`myregistry` absorbed into the repository, so the final repository path is
`myregistry/myrepo/img`, not the original's. -/
theorem relocate_roundtrip_counterexample :
    (ParseReference (str "myrepo/img:v1") defaultOpts).map refRepoStr
        = Except.ok (str "myrepo/img")
    ∧ relocTwice (str "myrepo/img:v1") (str "myregistry") (str "target.io")
        = Except.ok (Reference.tag ⟨⟨⟨str "target.io"⟩, str "myregistry/myrepo/img"⟩, str "v1"⟩)
    ∧ str "myregistry/myrepo/img" ≠ str "myrepo/img" := by
  refine ⟨by decide, by decide, by decide⟩

/-! ## C5: `AddArtifact` reference grammar and error identity -/

lemma ParseReference_err {s : List Char} {opt : NameOptions} {e : GoError}
    (h : ParseReference s opt = Except.error e) :
    e = GoError.badName (str "could not parse reference: " ++ s) := by
  unfold ParseReference at h
  cases hnt : NewTag s opt with
  | ok t => rw [hnt] at h; simp at h
  | error e1 =>
    rw [hnt] at h
    simp only at h
    cases hnd : NewDigest s opt with
    | ok d => rw [hnd] at h; simp at h
    | error e2 =>
      rw [hnd] at h
      simp only at h
      exact (Except.error.inj h).symm

lemma errorIs_wrap_badName (w m : List Char) :
    errorIs (GoError.wrap w (GoError.badName m)) ErrInvalidReference = false := by
  show errorIs (GoError.badName m) ErrInvalidReference = false
  simp [errorIs, ErrInvalidReference]

/-- C5 (amended).  First conjunct: when the reference string fails the grammar
of `AddArtifact`'s parse — an empty default registry and default tag `latest` —
`AddArtifact` returns the parse error wrapped with "adding artifact", commits
nothing (the store state is unchanged) and returns the zero descriptor; the
returned error is not the declared `ErrInvalidReference` sentinel (`errors.Is`
does not match it).  Second conjunct: a bare repository name (no registry part,
no tag) is committed with no registry prefix — no `index.docker.io` is
prepended — and with the tag defaulted to `latest`. -/
theorem addArtifact_reference_grammar :
    (∀ (st : Store) (s : StoreState) (oci : OCIArtifact) (ref : List Char) (e : GoError),
      ParseReference ref addOpts = Except.error e →
        AddArtifact st s oci ref
            = (s, zeroDescriptor, some (GoError.wrap (str "adding artifact") e))
          ∧ errorIs (GoError.wrap (str "adding artifact") e) ErrInvalidReference = false)
    ∧ (∀ (st : Store) (s : StoreState) (oci : OCIArtifact) (repo : List Char) (d : Descriptor),
      repo.all (fun c => hasChar c repositoryChars) = true →
      2 ≤ repo.length → repo.length ≤ 255 → hasChar '/' repo = false →
      (effectiveArtifact st oci).manifest = some d →
      AddArtifact st s oci repo
        = (commitStage s (repo ++ ':' :: str "latest") d (effectiveArtifact st oci).blobs,
            d, none)) := by
  constructor
  · intro st s oci ref e hp
    constructor
    · unfold AddArtifact
      rw [hp]
    · rw [ParseReference_err hp]
      exact errorIs_wrap_badName _ _
  · intro st s oci repo d hall hlo hhi hslash hm
    have hck : checkRepository repo = true := checkElement_of hlo hhi hall
    have hne : repo ≠ [] := by
      intro h0
      rw [h0] at hlo
      simp at hlo
    have hns : noRegistrySplit repo = true := by
      unfold noRegistrySplit
      rw [splitFirst_of_not_has hslash]
    have hp : ParseReference repo addOpts
        = Except.ok (Reference.tag ⟨⟨⟨[]⟩, repo⟩, str "latest"⟩) := by
      show ParseReference repo ⟨[], str "latest"⟩ = _
      exact ParseReference_plain hne hck hns
    have himp : hasImplicitNamespace repo ⟨[]⟩ = false := by
      unfold hasImplicitNamespace
      have hd : decide (([] : List Char) = DefaultRegistry) = false := by decide
      rw [show Registry.registry ⟨[]⟩ = [] from rfl, hd, Bool.and_false]
    have hnm : Name (Reference.tag ⟨⟨⟨[]⟩, repo⟩, str "latest"⟩)
        = repo ++ ':' :: str "latest" := by
      show RepositoryName ⟨⟨[]⟩, repo⟩ ++ ':' :: str "latest" = _
      unfold RepositoryName RegistryName
      rw [if_pos rfl, RepositoryStr_of_not_implicit himp]
    unfold AddArtifact
    rw [hp]
    simp only []
    rw [hm]
    simp only []
    rw [hnm]

/-- Witness for C5 at concrete inputs: an unparsable reference `???` fails with
the wrapped parse error — not the `ErrInvalidReference` sentinel — committing
nothing; and the bare `myrepo` commits under `myrepo:latest` with no registry
prefix. -/
theorem addArtifact_reference_grammar_witness :
    (AddArtifact storeW ⟨[], []⟩ (artW "m1") (str "???")
        = (⟨[], []⟩, zeroDescriptor,
            some (GoError.wrap (str "adding artifact")
              (GoError.badName (str "could not parse reference: ???"))))
      ∧ errorIs (GoError.wrap (str "adding artifact")
          (GoError.badName (str "could not parse reference: ???")))
          ErrInvalidReference = false)
    ∧ AddArtifact storeW ⟨[], []⟩ (artW "m1") (str "myrepo")
        = (⟨[(str "myrepo:latest", descW "m1")], [⟨str "m1", [7]⟩]⟩, descW "m1", none) := by
  constructor
  · exact addArtifact_reference_grammar.1 storeW ⟨[], []⟩ (artW "m1") (str "???")
      (GoError.badName (str "could not parse reference: ???")) (by decide)
  · have h := addArtifact_reference_grammar.2 storeW ⟨[], []⟩ (artW "m1") (str "myrepo")
      (descW "m1") (by decide) (by decide) (by decide) (by decide) (by decide)
    exact h.trans (by decide)

/-- Counterexample to C5 as stated: on the unparsable reference `???`,
`AddArtifact` fails — but with the wrapped parse error of the `name` library,
which neither equals nor `errors.Is`-matches the declared `ErrInvalidReference`
sentinel of `store.go:31`. -/
theorem addArtifact_invalid_sentinel_counterexample :
    (AddArtifact storeW ⟨[], []⟩ (artW "m1") (str "???")).2.2
        = some (GoError.wrap (str "adding artifact")
            (GoError.badName (str "could not parse reference: ???")))
    ∧ errorIs (GoError.wrap (str "adding artifact")
        (GoError.badName (str "could not parse reference: ???"))) ErrInvalidReference = false
    ∧ GoError.wrap (str "adding artifact")
        (GoError.badName (str "could not parse reference: ???")) ≠ ErrInvalidReference := by
  refine ⟨by decide, by decide, by decide⟩

/-! ## C6: `CopyAll` fail-fast and nil-mapper behaviour -/

lemma copyAllLoop_failfast {t : Target}
    {toMapper : Option (List Char → Except GoError (List Char))} {x : List Char}
    (post : List (List Char)) :
    ∀ (pre : List (List Char)), (∀ r ∈ pre, copyItemOk t toMapper r = true) →
      copyItemOk t toMapper x = false →
      ∀ ts : TargetState,
        copyAllLoop t toMapper (pre ++ x :: post) ts =
          (copyAllOk t toMapper pre ts, some (copyItemErr t toMapper x)) := by
  intro pre
  induction pre with
  | nil =>
    intro _ hx ts
    unfold copyItemOk at hx
    show copyAllLoop t toMapper (x :: post) ts = _
    unfold copyAllLoop copyItemErr
    cases hm : mapperOut toMapper x with
    | error e => rfl
    | ok toRef =>
      rw [hm] at hx
      simp only at hx
      show (match Copy t ts x toRef with
            | (ts', _, none) => copyAllLoop t toMapper post ts'
            | (ts', _, some e) => (ts', some e)) = _
      unfold Copy
      cases ho : t.outcome x toRef with
      | none => rfl
      | some d => rw [ho] at hx; simp at hx
  | cons r pre' ih =>
    intro hpre hx ts
    have hr : copyItemOk t toMapper r = true := hpre r (by simp)
    unfold copyItemOk at hr
    show copyAllLoop t toMapper (r :: (pre' ++ x :: post)) ts = _
    unfold copyAllLoop
    cases hm : mapperOut toMapper r with
    | error e => rw [hm] at hr; simp at hr
    | ok toRef =>
      rw [hm] at hr
      simp only at hr
      rw [Option.isSome_iff_exists] at hr
      obtain ⟨d, hd⟩ := hr
      show (match Copy t ts r toRef with
            | (ts', _, none) => copyAllLoop t toMapper (pre' ++ x :: post) ts'
            | (ts', _, some e) => (ts', some e)) = _
      unfold Copy
      rw [hd]
      show copyAllLoop t toMapper (pre' ++ x :: post) (ts ++ [(if toRef = [] then r else toRef, d)]) = _
      rw [ih (fun q hq => hpre q (by simp [hq])) hx _]
      have : copyAllOk t toMapper (r :: pre') ts =
          copyAllOk t toMapper pre' (ts ++ [(if toRef = [] then r else toRef, d)]) := by
        unfold copyAllOk
        rw [List.foldl_cons, hm]
        show List.foldl _ (Copy t ts r toRef).1 pre' = _
        unfold Copy
        rw [hd]
      rw [this]

/-- C6.  First conjunct: `CopyAll`, over a store whose reference enumeration is
`pre ++ x :: post` where every reference of `pre` copies successfully and the
step for `x` fails (mapper error or copy error), copies exactly the references
of `pre` — which remain copied in the target — stops immediately at `x` without
touching the remaining references, and returns `x`'s mapper or copy error.
Second conjunct: a nil mapper behaves exactly as a mapper returning the empty
destination name, which `Copy` interprets as "keep the source name". -/
theorem copyAll_failfast :
    (∀ (s : StoreState) (t : Target) (ts : TargetState)
      (toMapper : Option (List Char → Except GoError (List Char)))
      (pre : List (List Char)) (x : List Char) (post : List (List Char)),
      (ListReferences s).map Prod.fst = pre ++ x :: post →
      (∀ r ∈ pre, copyItemOk t toMapper r = true) →
      copyItemOk t toMapper x = false →
      CopyAll s t ts toMapper = (copyAllOk t toMapper pre ts, some (copyItemErr t toMapper x)))
    ∧ (∀ (s : StoreState) (t : Target) (ts : TargetState),
      CopyAll s t ts none = CopyAll s t ts (some (fun _ => Except.ok []))) := by
  constructor
  · intro s t ts toMapper pre x post henum hpre hx
    unfold CopyAll
    rw [henum]
    exact copyAllLoop_failfast post pre hpre hx ts
  · intro s t ts
    unfold CopyAll
    generalize (ListReferences s).map Prod.fst = refs
    induction refs generalizing ts with
    | nil => rfl
    | cons r rest ih =>
      show copyAllLoop t none (r :: rest) ts = copyAllLoop t (some fun _ => Except.ok []) (r :: rest) ts
      unfold copyAllLoop
      have hm1 : mapperOut none r = Except.ok ([] : List Char) := rfl
      have hm2 : mapperOut (some fun _ => Except.ok []) r = Except.ok ([] : List Char) := rfl
      rw [hm1, hm2]
      show (match Copy t ts r [] with
            | (ts', _, none) => copyAllLoop t none rest ts'
            | (ts', _, some e) => (ts', some e)) =
          (match Copy t ts r [] with
            | (ts', _, none) => copyAllLoop t (some fun _ => Except.ok []) rest ts'
            | (ts', _, some e) => (ts', some e))
      cases hc : Copy t ts r [] with
      | mk ts' rest2 =>
        cases rest2 with
        | mk d e' =>
          cases e' with
          | none => exact ih ts'
          | some e => rfl

/-- Witness for C6: the spec's scenario — five references with a mapper that
errors on the third.  Exactly the first two references are copied to the
target, and `CopyAll` returns the mapper's error; and over the same store a nil
mapper equals the empty-destination mapper. -/
theorem copyAll_failfast_witness :
    CopyAll
        ⟨[(str "r1", descW "a"), (str "r2", descW "b"), (str "r3", descW "c"),
          (str "r4", descW "d"), (str "r5", descW "e")], []⟩
        targetW [] (some mapperW)
      = ([(str "r1", descW "m"), (str "r2", descW "m")], some (GoError.mapper (str "bad mapping")))
    ∧ CopyAll ⟨[(str "r1", descW "a")], []⟩ targetW [] none
      = CopyAll ⟨[(str "r1", descW "a")], []⟩ targetW [] (some (fun _ => Except.ok [])) := by
  constructor
  · have h := copyAll_failfast.1
      ⟨[(str "r1", descW "a"), (str "r2", descW "b"), (str "r3", descW "c"),
        (str "r4", descW "d"), (str "r5", descW "e")], []⟩
      targetW [] (some mapperW) [str "r1", str "r2"] (str "r3") [str "r4", str "r5"]
      (by decide) (by decide) (by decide)
    exact h.trans (by decide)
  · exact copyAll_failfast.2 ⟨[(str "r1", descW "a")], []⟩ targetW []

/-! ## C9: the cache is transparent -/

lemma cacheOci_id {c : Cache} {oci : OCIArtifact}
    (h : ∀ b ∈ oci.blobs, blobCoherent c b = true) : cacheOci oci c = oci := by
  unfold cacheOci
  cases oci with
  | mk m bs =>
    simp only [OCIArtifact.mk.injEq, true_and]
    induction bs with
    | nil => rfl
    | cons b rest ih =>
      rw [List.map_cons]
      have hb : blobCoherent c b = true := h b (by simp)
      unfold blobCoherent at hb
      have hrest := ih (fun q hq => h q (by simp [hq]))
      rw [hrest]
      cases hl : c.lookup b.digest with
      | hit bytes =>
        rw [hl] at hb
        have : bytes = b.bytes := of_decide_eq_true hb
        subst this
        rfl
      | miss => rfl
      | failed => rfl

/-- C9.  `AddArtifact` through a cache whose entries are coherent with the
artifact's content-addressed blobs (every hit for a blob's digest returns that
blob's bytes; misses and cache I/O failures unrestricted) returns exactly the
same committed descriptor, the same resulting store state and the same error
behaviour as `AddArtifact` with no cache at all: the cache changes only the
work performed, never the result, and a cache failure never fails the add. -/
theorem cache_transparent (c : Cache) (s : StoreState) (oci : OCIArtifact)
    (ref : List Char) (h : ∀ b ∈ oci.blobs, blobCoherent c b = true) :
    AddArtifact ⟨some c⟩ s oci ref = AddArtifact ⟨none⟩ s oci ref := by
  have he : effectiveArtifact ⟨some c⟩ oci = effectiveArtifact ⟨none⟩ oci := by
    show cacheOci oci c = oci
    exact cacheOci_id h
  unfold AddArtifact
  rw [he]

/-- Witness for C9 at concrete inputs: adding `artC` through `cacheW` (one hit,
one cache failure, one miss) equals adding it with no cache. -/
theorem cache_transparent_witness :
    AddArtifact ⟨some cacheW⟩ ⟨[], []⟩ artC (str "repo:v1")
      = AddArtifact ⟨none⟩ ⟨[], []⟩ artC (str "repo:v1") := by
  exact cache_transparent cacheW ⟨[], []⟩ artC (str "repo:v1") (by decide)

end Hauler
